import Mathlib

/-!
# RadiationWatch (Pocket Geiger Type 5 library): verification of `RadiationWatch.cpp`

A shallow embedding of `src/RadiationWatch.cpp`.

* The file-level globals (`radiationCount`, `noiseCount`, `radiationFlag`,
  `noiseFlag`, `loopTime`, `loopElasped`) and the members of the class are the
  fields of one record, `Watch`.
* `millis()` is an input: every call of `loop()` receives the values its three
  reads of the clock return (`Clock`).
* The header `RadiationWatch.h` is not part of the sources.  What it declares is
  taken as a parameter: `kHistoryCount` (the length of `_cpmHistory`), the width
  `w` of `int` / `unsigned int` (16 on the ATmega328 the code names, 32 on the
  32-bit cores) and the window length `cpmTime()`.  `unsigned long` has 32 bits.
* Pulse counts (`radiationCount`, `noiseCount`, `_cpm`, the buckets of
  `_cpmHistory`) are unbounded integers in the runs: the counters are drained
  every 160 ms.  Where the size of a count matters the handler is taken with its
  `w`-bit counter (`_onRadiationHandlerInt`), which agrees with the unbounded
  one below `2^(w-1)`.  Time values are machine integers with explicit
  wrap-around.
* The user callbacks are observed through the list of callbacks a call of
  `loop()` invokes, in order.
* A run is a sequence of pulses and calls of `loop()`: the interrupt handlers run
  between two calls of `loop()`, a call of `loop()` is one step.  `loopPreempted`
  is `loop()` with pulses that arrive while the call executes.
-/

namespace RadiationWatch

/-! ## Machine arithmetic -/

/-- Number of values of an `unsigned long`. -/
def ulongRange : Nat := 2 ^ 32

/-- Subtraction of two `unsigned long` values. -/
def subUL (a b : Nat) : Nat :=
  (a % ulongRange + (ulongRange - b % ulongRange)) % ulongRange

/-- Arduino's `abs(x)`, the macro `((x)>0?(x):-(x))`, at type `unsigned long`. -/
def absUL (x : Nat) : Nat :=
  if x > 0 then x else (ulongRange - x) % ulongRange

/-- Cast `(int) x` of an unsigned value to an `int` of `w` bits (two's complement). -/
def castInt (w : Nat) (x : Nat) : Int :=
  if x % 2 ^ w < 2 ^ (w - 1) then ((x % 2 ^ w : Nat) : Int)
  else ((x % 2 ^ w : Nat) : Int) - ((2 ^ w : Nat) : Int)

/-! ## State -/

/-- Globals of `RadiationWatch.cpp` and members of the class `RadiationWatch`. -/
structure Watch where
  radiationCount : Int
  noiseCount : Int
  radiationFlag : Bool
  noiseFlag : Bool
  loopTime : Nat
  loopElasped : Nat
  previousTime : Nat
  _cpm : Int
  cpmIndex : Nat
  cpmIndexPrev : Int
  totalTime : Nat
  _cpmHistory : List Int
  _radiationCallback : Bool
  _noiseCallback : Bool
deriving DecidableEq, Repr

/-- The three values `millis()` returns in one call of `loop()`:
at line 70 (elapsed time), at line 71 (`loopTime`) and at line 80 (`currentTime`). -/
structure Clock where
  atElapsed : Nat
  atLoopTime : Nat
  atCurrent : Nat
deriving DecidableEq, Repr

/-- A user callback invoked by `loop()`. -/
inductive Callback where
  | radiation
  | noise
deriving DecidableEq, Repr

/-! ## Interrupt handlers -/

/-- Lines 22-26. -/
def _onRadiationHandler (s : Watch) : Watch :=
  { s with radiationCount := s.radiationCount + 1, radiationFlag := true }

/-- Lines 28-32. -/
def _onNoiseHandler (s : Watch) : Watch :=
  { s with noiseCount := s.noiseCount + 1, noiseFlag := true }

/-! ## Construction and setup -/

/-- Program start followed by the constructor (lines 15-18, 34-46, 64-65);
`mem` is the indeterminate content of `_cpmHistory` before `setup()`. -/
def construct (mem : List Int) : Watch :=
  { radiationCount := 0, noiseCount := 0, radiationFlag := false, noiseFlag := false,
    loopTime := 0, loopElasped := 0,
    previousTime := 0, _cpm := 0, cpmIndex := 0, cpmIndexPrev := 0, totalTime := 0,
    _cpmHistory := mem, _radiationCallback := false, _noiseCallback := false }

/-- Lines 48-62: every bucket is zeroed and `previousTime` is read from the
clock (`now`). -/
def setup (kHistoryCount : Nat) (s : Watch) (now : Nat) : Watch :=
  { s with _cpmHistory := List.replicate kHistoryCount 0, previousTime := now % ulongRange }

/-- The constructed and set-up object. -/
def initial (kHistoryCount : Nat) (now : Nat) : Watch :=
  setup kHistoryCount (construct []) now

/-- Lines 120-123. -/
def registerRadiationCallback (s : Watch) (callback : Bool) : Watch :=
  { s with _radiationCallback := callback }

/-- Lines 125-128. -/
def registerNoiseCallback (s : Watch) (callback : Bool) : Watch :=
  { s with _noiseCallback := callback }

/-! ## The polling cycle -/

/-- Line 83: `int totalTimeSec = (int) totalTime / 1000;` (the cast applies to
`totalTime`, the division is the truncating division of `int`). -/
def totalTimeSec (w : Nat) (s : Watch) : Int :=
  Int.tdiv (castInt w s.totalTime) 1000

/-- Line 84, the test that decides the rotation. -/
def rotates (w : Nat) (s : Watch) : Bool :=
  decide (Int.tmod (totalTimeSec w s) 6 = 0) && decide (s.cpmIndexPrev ≠ totalTimeSec w s)

/-- Lines 86-88: the index of the next bucket. -/
def nextIndex (kHistoryCount : Nat) (i : Nat) : Nat :=
  if i + 1 ≥ kHistoryCount then 0 else i + 1

/-- Lines 83-92: shift to the next bucket every six seconds. -/
def rotate (kHistoryCount w : Nat) (s : Watch) : Watch :=
  if rotates w s then
    let i := nextIndex kHistoryCount s.cpmIndex
    { s with
      cpmIndexPrev := totalTimeSec w s
      cpmIndex := i
      _cpm := if s._cpmHistory.getD i 0 > 0 then s._cpm - s._cpmHistory.getD i 0 else s._cpm
      _cpmHistory := s._cpmHistory.set i 0 }
  else s

/-- Lines 93-101: store the count, add the elapsed time, restart `loopElasped`. -/
def accumulate (s : Watch) (currentTime : Nat) : Watch :=
  { s with
    _cpmHistory := s._cpmHistory.set s.cpmIndex (s._cpmHistory.getD s.cpmIndex 0 + s.radiationCount)
    _cpm := s._cpm + s.radiationCount
    totalTime := (s.totalTime + absUL (subUL currentTime s.previousTime)) % ulongRange
    loopElasped := 0 }

/-- Lines 104-106. -/
def resetCounters (s : Watch) (currentTime : Nat) : Watch :=
  { s with previousTime := currentTime, radiationCount := 0, noiseCount := 0 }

/-- Lines 109-112: the radiation callback. -/
def dispatchRadiation (s : Watch) : Watch × List Callback :=
  if s._radiationCallback && s.radiationFlag then
    ({ s with radiationFlag := false }, [Callback.radiation])
  else (s, [])

/-- Lines 113-116: the noise callback. -/
def dispatchNoise (s : Watch) : Watch × List Callback :=
  if s._noiseCallback && s.noiseFlag then
    ({ s with noiseFlag := false }, [Callback.noise])
  else (s, [])

/-- Lines 109-116: the callbacks, radiation first. -/
def dispatch (s : Watch) : Watch × List Callback :=
  ((dispatchNoise (dispatchRadiation s).1).1,
    (dispatchRadiation s).2 ++ (dispatchNoise (dispatchRadiation s).1).2)

/-- Lines 70-71: the elapsed time is accumulated and `loopTime` is updated.  The
macro `abs` evaluates its argument, and with it `millis()`, twice; `atElapsed`
stands for a clock value that yields the result of the macro. -/
def tick (w : Nat) (s : Watch) (c : Clock) : Watch :=
  { s with
    loopElasped := (s.loopElasped + absUL (subUL c.atElapsed s.loopTime)) % 2 ^ w
    loopTime := c.atLoopTime % ulongRange }

/-- Line 78: does this call of `loop()` enter the processing branch? -/
def drains (w : Nat) (s : Watch) (c : Clock) : Bool :=
  decide ((tick w s c).loopElasped > 160)

/-- Lines 67-118: `RadiationWatch::loop()`, with the callbacks it invokes. -/
def loop (kHistoryCount w : Nat) (s : Watch) (c : Clock) : Watch × List Callback :=
  let s1 := tick w s c
  if s1.loopElasped > 160 then
    let currentTime := c.atCurrent % ulongRange
    let s2 := if s1.noiseCount = 0 then accumulate (rotate kHistoryCount w s1) currentTime else s1
    dispatch (resetCounters s2 currentTime)
  else (s1, [])

/-! ## Runs -/

/-- What happens to the object: a pulse on one of the two lines, or a call of `loop()`. -/
inductive Event where
  | radiationPulse
  | noisePulse
  | loopCall (c : Clock)
deriving DecidableEq, Repr

/-- One event. -/
def step (kHistoryCount w : Nat) (s : Watch) : Event → Watch × List Callback
  | Event.radiationPulse => (_onRadiationHandler s, [])
  | Event.noisePulse => (_onNoiseHandler s, [])
  | Event.loopCall c => loop kHistoryCount w s c

/-- A sequence of events, with the callbacks invoked along the way. -/
def run (kHistoryCount w : Nat) (s : Watch) : List Event → Watch × List Callback
  | [] => (s, [])
  | e :: es =>
    ((run kHistoryCount w (step kHistoryCount w s e).1 es).1,
      (step kHistoryCount w s e).2 ++ (run kHistoryCount w (step kHistoryCount w s e).1 es).2)

/-- Lines 150-153. -/
def duration (s : Watch) : Nat := s.totalTime

/-! ## The dose estimator -/

/-- Line 162: `static const double kAlpha = 53.032;`. -/
def kAlpha (F : Type) [LinearOrderedField F] : F := 53.032

/-- Lines 155-159, `cpm()`.  The `double`s are the elements of an ordered field
`F`; `min` is the value of `cpmTime()` (declared in the header) and `dv` is the
operation that divides by it. -/
def cpmWith {F : Type} [LinearOrderedField F] (dv : F → F → F) (_cpm : Int) (min : F) : F :=
  if min > 0 then dv (_cpm : F) min else 0

/-- Lines 164-167, `uSvh()`. -/
def uSvhWith {F : Type} [LinearOrderedField F] (dv : F → F → F) (_cpm : Int) (min : F) : F :=
  cpmWith dv _cpm min / kAlpha F

/-- Lines 169-173, `uSvhError()`; `sqrt` is the square root of `F`. -/
def uSvhErrorWith {F : Type} [LinearOrderedField F] (sqrt : F → F) (dv : F → F → F)
    (_cpm : Int) (min : F) : F :=
  if min > 0 then dv (sqrt (_cpm : F)) min / kAlpha F else 0

/-- Counts per minute, `cpm()`, with the division of `F`. -/
def cpm {F : Type} [LinearOrderedField F] (_cpm : Int) (min : F) : F :=
  cpmWith (fun x y => x / y) _cpm min

/-- Dose rate, `uSvh()`, with the division of `F`. -/
def uSvh {F : Type} [LinearOrderedField F] (_cpm : Int) (min : F) : F :=
  uSvhWith (fun x y => x / y) _cpm min

/-- Error of the dose rate, `uSvhError()`, with the division of `F`. -/
def uSvhError {F : Type} [LinearOrderedField F] (sqrt : F → F) (_cpm : Int) (min : F) : F :=
  uSvhErrorWith sqrt (fun x y => x / y) _cpm min

/-! ## Runs without a drain, bursts of pulses -/

/-- No call of `loop()` in the run enters the processing branch. -/
def quiet (kHistoryCount w : Nat) (s : Watch) : List Event → Bool
  | [] => true
  | Event.loopCall c :: es =>
    !drains w s c && quiet kHistoryCount w (loop kHistoryCount w s c).1 es
  | e :: es => quiet kHistoryCount w (step kHistoryCount w s e).1 es

/-- The radiation handler runs `n` times in a row. -/
def radiationPulses : Nat → Watch → Watch
  | 0, s => s
  | n + 1, s => radiationPulses n (_onRadiationHandler s)

/-- A run of sixteen polling cycles of 750 ms from the set-up object (two buckets,
16-bit `int`, a radiation callback registered) with three pulses in the first
cycle: twelve seconds of measurement, one rotation done and the next one due. -/
def twelveSeconds : Watch :=
  (run 2 16 (registerRadiationCallback (initial 2 0) true)
    ([Event.radiationPulse, Event.radiationPulse, Event.radiationPulse] ++
      (List.range 16).map fun j =>
        Event.loopCall ⟨750 * (j + 1), 750 * (j + 1), 750 * (j + 1)⟩)).1

/-- The set-up object (two buckets, 16-bit `int`, set up at instant 0) after one
noise pulse and a call of `loop()` at 200 ms, which drains and finds the noise. -/
def afterNoisyDrain : Watch :=
  (loop 2 16 (_onNoiseHandler (initial 2 0)) ⟨200, 200, 200⟩).1

/-! ## Bucket periods -/

/-- The radiation count that event `e`, met in state `s`, adds to the measurement on
behalf of the six-second period `k` of measured time: the count drained by a
noise-free draining call of `loop()` that starts with `totalTime` in
`[6000 k, 6000 (k + 1))`. -/
def drainedIn (w : Nat) (k : Nat) (s : Watch) : Event → Int
  | Event.loopCall c =>
    if drains w s c && decide (s.noiseCount = 0) && decide (s.totalTime / 6000 = k)
    then s.radiationCount else 0
  | _ => 0

/-- Radiation pulses that period `k` receives in total along a run. -/
def pulsesIn (kHistoryCount w : Nat) (k : Nat) (s : Watch) : List Event → Int
  | [] => 0
  | e :: es =>
    drainedIn w k s e + pulsesIn kHistoryCount w k (step kHistoryCount w s e).1 es

/-- Event `e`, met in state `s`, is no draining call of `loop()`, or it is one that
finds no noise, adds less than 1000 ms to `totalTime` and starts with
`totalTime` below `limit`. -/
def regularAt (w limit : Nat) (s : Watch) : Event → Bool
  | Event.loopCall c =>
    !drains w s c ||
      (decide (s.noiseCount = 0) &&
        decide (absUL (subUL (c.atCurrent % ulongRange) s.previousTime) < 1000) &&
        decide (s.totalTime < limit))
  | _ => true

/-- Every event of the run is regular. -/
def regular (kHistoryCount w limit : Nat) (s : Watch) : List Event → Bool
  | [] => true
  | e :: es =>
    regularAt w limit s e && regular kHistoryCount w limit (step kHistoryCount w s e).1 es

/-- Polling cycle number `j` of a run with one call of `loop()` every 750 ms and one
radiation pulse every six seconds. -/
def steadyCycle (j : Nat) : List Event :=
  (if j % 8 = 0 then [Event.radiationPulse] else []) ++
    [Event.loopCall ⟨750 * (j + 1), 750 * (j + 1), 750 * (j + 1)⟩]

/-- Thirty-six seconds of that run: six bucket periods with one pulse each. -/
def thirtySixSeconds : List Event :=
  (List.range 48).flatMap steadyCycle

/-! ## Invariants -/

/-- Invariant of the accumulator: the index is inside the array, the buckets and
the pending count are non-negative and `_cpm` is the sum of the buckets. -/
structure Consistent (kHistoryCount : Nat) (s : Watch) : Prop where
  index_lt : s.cpmIndex < kHistoryCount
  length_eq : s._cpmHistory.length = kHistoryCount
  buckets_nonneg : ∀ x ∈ s._cpmHistory, 0 ≤ x
  count_nonneg : 0 ≤ s.radiationCount
  total_eq : s._cpm = s._cpmHistory.sum

/-- Invariant of the window while the run is regular and `(int) totalTime` does not
overflow.  `k` is the bucket period of the latest drain and `P j` the pulses
period `j` has received so far: the bucket of period `j` holds `P j` for the
`kHistoryCount` latest periods, and `_cpm` is the sum over these periods. -/
structure Aging (kHistoryCount limit : Nat) (s : Watch) (P : Nat → Int) (k : Nat) : Prop where
  length_eq : s._cpmHistory.length = kHistoryCount
  index_eq : s.cpmIndex = k % kHistoryCount
  prev_eq : s.cpmIndexPrev = ((6 * k : Nat) : Int)
  time_ge : 6000 * k ≤ s.totalTime
  time_lt : s.totalTime < 6000 * (k + 1) + 1000
  period_lt : 6000 * k < limit
  count_nonneg : 0 ≤ s.radiationCount
  ghost_nonneg : ∀ j, 0 ≤ P j
  ghost_future : ∀ j, k < j → P j = 0
  bucket_eq : ∀ j, j ≤ k → k < j + kHistoryCount → s._cpmHistory.getD (j % kHistoryCount) 0 = P j
  bucket_zero : ∀ i, k < i → i < kHistoryCount → s._cpmHistory.getD i 0 = 0
  total_eq : s._cpm = ∑ j in Finset.Icc (k + 1 - kHistoryCount) k, P j

/-! ## The advance of the accumulator -/

/-- The current index after the rotation decision of a noise-free draining call:
`(cpmIndex + 1) mod kHistoryCount` when the call rotates, `cpmIndex` otherwise. -/
def indexAfter (kHistoryCount w : Nat) (s : Watch) : Nat :=
  if rotates w s then (s.cpmIndex + 1) % kHistoryCount else s.cpmIndex

/-- The set-up object (two buckets, 16-bit `int`, set up at instant 0) after one call
of `loop()` at 33000 ms. -/
def thirtyThreeSeconds : Watch :=
  (loop 2 16 (initial 2 0) ⟨33000, 33000, 33000⟩).1

/-! ## Flags and late registration -/

/-- The set-up object (two buckets, 16-bit `int`, no callback registered) after one
radiation pulse and a draining call of `loop()` at 200 ms. -/
def drainedUnregistered : Watch :=
  (loop 2 16 (_onRadiationHandler (initial 2 0)) ⟨200, 200, 200⟩).1

/-! ## Wrap-around of the measured time -/

/-- Event `e`, met in state `s`, is no noise-free draining call of `loop()`, or it is
one whose addition to `totalTime` does not exceed the range of `unsigned long`. -/
def fitsAt (w : Nat) (s : Watch) : Event → Bool
  | Event.loopCall c =>
    !drains w s c || !decide (s.noiseCount = 0) ||
      decide (s.totalTime + absUL (subUL (c.atCurrent % ulongRange) s.previousTime) < ulongRange)
  | _ => true

/-- No addition to `totalTime` along the run exceeds the range of `unsigned long`. -/
def fits (kHistoryCount w : Nat) (s : Watch) : List Event → Bool
  | [] => true
  | e :: es => fitsAt w s e && fits kHistoryCount w (step kHistoryCount w s e).1 es

/-- The set-up object (two buckets, 16-bit `int`, set up at instant 0) after a first
call of `loop()` at 4294967000 ms and a second one 200 ms later: 96 ms before
the 32-bit clock wraps. -/
def fiftyDays : Watch :=
  (run 2 16 (initial 2 0)
    [Event.loopCall ⟨4294967000, 4294967000, 4294967000⟩,
      Event.loopCall ⟨4294967200, 4294967200, 4294967200⟩]).1

/-! ## Cold start -/

/-- The radiation count that event `e`, met in state `s`, adds to the measurement:
the count drained by a noise-free draining call of `loop()`. -/
def drainedBy (w : Nat) (s : Watch) : Event → Int
  | Event.loopCall c =>
    if drains w s c && decide (s.noiseCount = 0) then s.radiationCount else 0
  | _ => 0

/-- All the counts drained into the measurement along a run. -/
def drainedTotal (kHistoryCount w : Nat) (s : Watch) : List Event → Int
  | [] => 0
  | e :: es => drainedBy w s e + drainedTotal kHistoryCount w (step kHistoryCount w s e).1 es

/-- Event `e`, met in state `s`, is no noise-free draining call of `loop()`, or it is
one that begins while `totalTime < 6000`. -/
def coldAt (w : Nat) (s : Watch) : Event → Bool
  | Event.loopCall c =>
    !drains w s c || !decide (s.noiseCount = 0) || decide (s.totalTime < 6000)
  | _ => true

/-- Every noise-free draining call of the run begins while `totalTime < 6000`. -/
def cold (kHistoryCount w : Nat) (s : Watch) : List Event → Bool
  | [] => true
  | e :: es => coldAt w s e && cold kHistoryCount w (step kHistoryCount w s e).1 es

/-- The first bucket is current, nothing has been rotated, bucket 0 holds `P` and the
other buckets are empty. -/
structure FirstBucket (kHistoryCount : Nat) (s : Watch) (P : Int) : Prop where
  index_eq : s.cpmIndex = 0
  prev_eq : s.cpmIndexPrev = 0
  length_eq : s._cpmHistory.length = kHistoryCount
  bucket_eq : s._cpmHistory.getD 0 0 = P
  others_eq : ∀ i, i ≠ 0 → s._cpmHistory.getD i 0 = 0
  total_eq : s._cpm = P

/-- Eight polling cycles of 750 ms with radiation pulses and, in the third cycle, a
noise pulse: the third cycle is discarded, 5.25 s of time are measured. -/
def fiveSeconds : List Event :=
  [Event.radiationPulse, Event.loopCall ⟨750, 750, 750⟩,
    Event.radiationPulse, Event.radiationPulse, Event.loopCall ⟨1500, 1500, 1500⟩,
    Event.radiationPulse, Event.noisePulse, Event.loopCall ⟨2250, 2250, 2250⟩,
    Event.radiationPulse, Event.loopCall ⟨3000, 3000, 3000⟩,
    Event.loopCall ⟨3750, 3750, 3750⟩,
    Event.radiationPulse, Event.loopCall ⟨4500, 4500, 4500⟩,
    Event.radiationPulse, Event.loopCall ⟨5250, 5250, 5250⟩,
    Event.radiationPulse, Event.loopCall ⟨6000, 6000, 6000⟩]

/-! ## Rotation and the six-second boundaries -/

/-- The value of `floor(totalTime / 6000)` at the latest rotation once event `e` has
been met in state `s`: this value if `e` is a noise-free draining call of
`loop()` that rotates, the former value `k0` otherwise. -/
def rotatedAt (w : Nat) (k0 : Nat) (s : Watch) : Event → Nat
  | Event.loopCall c =>
    if drains w s c && decide (s.noiseCount = 0) && rotates w s then s.totalTime / 6000 else k0
  | _ => k0

/-- The value of `floor(totalTime / 6000)` at the latest rotation of a run, `k0` when
the run does not rotate. -/
def lastRotation (kHistoryCount w : Nat) (k0 : Nat) (s : Watch) : List Event → Nat
  | [] => k0
  | e :: es =>
    lastRotation kHistoryCount w (rotatedAt w k0 s e) (step kHistoryCount w s e).1 es

/-- Event `e`, met in state `s`, is no noise-free draining call of `loop()`, or it is
one that adds less than 1000 ms to `totalTime` and starts with `totalTime`
below `limit`. -/
def pacedAt (w limit : Nat) (s : Watch) : Event → Bool
  | Event.loopCall c =>
    !drains w s c || !decide (s.noiseCount = 0) ||
      (decide (absUL (subUL (c.atCurrent % ulongRange) s.previousTime) < 1000) &&
        decide (s.totalTime < limit))
  | _ => true

/-- Every event of the run is paced. -/
def paced (kHistoryCount w limit : Nat) (s : Watch) : List Event → Bool
  | [] => true
  | e :: es =>
    pacedAt w limit s e && paced kHistoryCount w limit (step kHistoryCount w s e).1 es

/-- Two noise-free polling cycles, 5900 ms and 7000 ms after `setup()`: the second
one adds 1100 ms and takes `totalTime` from 5900 to 7000. -/
def sevenSeconds : List Event :=
  [Event.loopCall ⟨5900, 5900, 5900⟩, Event.loopCall ⟨7000, 7000, 7000⟩]

/-- Twelve seconds of the run with one call of `loop()` every 750 ms and one
radiation pulse every six seconds. -/
def steadyTwelve : List Event :=
  (List.range 16).flatMap steadyCycle

/-! ## Pre-emption of `loop()` -/

/-- A pulse on one of the two interrupt lines. -/
inductive Pulse where
  | radiation
  | noise
deriving DecidableEq, Repr

/-- The handler attached to the line of the pulse (lines 60-61). -/
def handle (s : Watch) : Pulse → Watch
  | Pulse.radiation => _onRadiationHandler s
  | Pulse.noise => _onNoiseHandler s

/-- The handlers of a sequence of pulses, in order. -/
def handleAll (s : Watch) (ps : List Pulse) : Watch :=
  ps.foldl handle s

/-- Lines 67-118 with pre-emption: `loop()` where the pulses `mid` arrive while the
call executes, after the test of `noiseCount` at line 81.  On the noise-free
path the interrupts are masked from line 93 on (`noInterrupts()`), so the
handlers of `mid` run during lines 83-92, which touch none of the counters; on
the noisy path nothing masks the interrupts and the handlers run before the
resets of lines 105-106.  A call that does not drain has no such window: the
handlers of `mid` run after it. -/
def loopPreempted (kHistoryCount w : Nat) (s : Watch) (c : Clock) (mid : List Pulse) :
    Watch × List Callback :=
  let s1 := tick w s c
  if s1.loopElasped > 160 then
    let currentTime := c.atCurrent % ulongRange
    if s1.noiseCount = 0 then
      dispatch (resetCounters
        (accumulate (handleAll (rotate kHistoryCount w s1) mid) currentTime) currentTime)
    else dispatch (resetCounters (handleAll s1 mid) currentTime)
  else (handleAll s1 mid, [])

/-! ## The radiation counter as a machine integer -/

/-- Value of an integer in an `int` of `w` bits (two's complement wrap-around). -/
def wrapInt (w : Nat) (x : Int) : Int :=
  castInt w (x % ((2 ^ w : Nat) : Int)).toNat

/-- Lines 22-26 with `radiationCount` as the `int` of `w` bits it is declared as
(line 15): `radiationCount++` wraps around at `2^(w-1)`. -/
def _onRadiationHandlerInt (w : Nat) (s : Watch) : Watch :=
  { s with radiationCount := wrapInt w (s.radiationCount + 1), radiationFlag := true }

/-- The radiation handler, with its `w`-bit counter, runs `n` times in a row. -/
def radiationPulsesInt (w : Nat) : Nat → Watch → Watch
  | 0, s => s
  | n + 1, s => radiationPulsesInt w n (_onRadiationHandlerInt w s)

/-- The set-up object (two buckets, 16-bit `int`, set up at instant 0) with a radiation
callback registered, after a first draining call of `loop()` at 200 ms. -/
def registered : Watch :=
  (loop 2 16 (registerRadiationCallback (initial 2 0) true) ⟨200, 200, 200⟩).1

/-! # Theorems -/

/-! ## Lists of buckets -/

theorem sum_set_bucket (l : List Int) (i : Nat) (v : Int) (h : i < l.length) :
    (l.set i v).sum = l.sum - l.getD i 0 + v := by
  induction l generalizing i with
  | nil => simp at h
  | cons a t ih =>
    cases i with
    | zero => simp [List.set]; ring
    | succ j =>
      have hj : j < t.length := by simpa using h
      simp only [List.set, List.sum_cons, ih j hj, List.getD_cons_succ]
      ring

theorem range_map_getD (l : List Int) :
    (List.range l.length).map (fun i => l.getD i 0) = l := by
  apply List.ext_getElem
  · simp
  · intro n h1 h2
    simp [List.getD_eq_getElem, h2]

theorem getD_nonneg (l : List Int) (i : Nat) (h : ∀ x ∈ l, 0 ≤ x) : 0 ≤ l.getD i 0 := by
  by_cases hi : i < l.length
  · rw [List.getD_eq_getElem l 0 hi]
    exact h _ (List.getElem_mem hi)
  · rw [List.getD_eq_default l 0 (by omega)]

theorem set_nonneg (l : List Int) (i : Nat) (v : Int) (h : ∀ x ∈ l, 0 ≤ x) (hv : 0 ≤ v) :
    ∀ x ∈ l.set i v, 0 ≤ x := by
  intro x hx
  rcases List.mem_or_eq_of_mem_set hx with hm | he
  · exact h x hm
  · rw [he]; exact hv

/-! ## The running total -/

theorem nextIndex_lt (H i : Nat) (hH : 1 ≤ H) : nextIndex H i < H := by
  unfold nextIndex
  split <;> omega

theorem consistent_initial (H now : Nat) (hH : 1 ≤ H) : Consistent H (initial H now) := by
  refine ⟨?_, ?_, ?_, ?_, ?_⟩
  · simpa [initial, setup, construct] using hH
  · simp [initial, setup]
  · intro x hx
    simp [initial, setup, List.mem_replicate] at hx
    omega
  · simp [initial, setup, construct]
  · simp [initial, setup, construct]

theorem consistent_rotate (H w : Nat) (s : Watch) (hH : 1 ≤ H) (h : Consistent H s) :
    Consistent H (rotate H w s) := by
  unfold rotate
  split
  · have hi : nextIndex H s.cpmIndex < s._cpmHistory.length := by
      rw [h.length_eq]; exact nextIndex_lt H _ hH
    have hg := getD_nonneg s._cpmHistory (nextIndex H s.cpmIndex) h.buckets_nonneg
    refine ⟨?_, ?_, ?_, ?_, ?_⟩
    · exact nextIndex_lt H _ hH
    · simp [h.length_eq]
    · exact set_nonneg _ _ _ h.buckets_nonneg (le_refl 0)
    · exact h.count_nonneg
    · simp only
      rw [sum_set_bucket _ _ _ hi, h.total_eq]
      split
      · ring
      · have : s._cpmHistory.getD (nextIndex H s.cpmIndex) 0 = 0 := by omega
        rw [this]; ring
  · exact h

theorem consistent_accumulate (H : Nat) (s : Watch) (t : Nat) (h : Consistent H s) :
    Consistent H (accumulate s t) := by
  have hi : s.cpmIndex < s._cpmHistory.length := by rw [h.length_eq]; exact h.index_lt
  have hg := getD_nonneg s._cpmHistory s.cpmIndex h.buckets_nonneg
  refine ⟨h.index_lt, ?_, ?_, h.count_nonneg, ?_⟩
  · simp [accumulate, h.length_eq]
  · exact set_nonneg _ _ _ h.buckets_nonneg (add_nonneg hg h.count_nonneg)
  · simp only [accumulate]
    rw [sum_set_bucket _ _ _ hi, h.total_eq]
    ring

theorem consistent_loop (H w : Nat) (s : Watch) (c : Clock) (hH : 1 ≤ H) (h : Consistent H s) :
    Consistent H (loop H w s c).1 := by
  have h1 : Consistent H (tick w s c) := ⟨h.index_lt, h.length_eq, h.buckets_nonneg, h.count_nonneg, h.total_eq⟩
  have hd : ∀ u : Watch, Consistent H u → Consistent H (dispatch u).1 := by
    intro u hu
    simp only [dispatch, dispatchRadiation, dispatchNoise]
    split_ifs <;>
      exact ⟨hu.index_lt, hu.length_eq, hu.buckets_nonneg, hu.count_nonneg, hu.total_eq⟩
  have hr : ∀ (u : Watch) (t : Nat), Consistent H u → Consistent H (resetCounters u t) := by
    intro u t hu
    exact ⟨hu.index_lt, hu.length_eq, hu.buckets_nonneg, le_refl 0, hu.total_eq⟩
  unfold loop
  simp only
  split
  · apply hd
    apply hr
    split
    · exact consistent_accumulate H _ _ (consistent_rotate H w _ hH h1)
    · exact h1
  · exact h1

theorem consistent_step (H w : Nat) (s : Watch) (e : Event) (hH : 1 ≤ H) (h : Consistent H s) :
    Consistent H (step H w s e).1 := by
  cases e with
  | radiationPulse =>
    exact ⟨h.index_lt, h.length_eq, h.buckets_nonneg, by
      have := h.count_nonneg
      simp only [step, _onRadiationHandler]; omega, h.total_eq⟩
  | noisePulse => exact ⟨h.index_lt, h.length_eq, h.buckets_nonneg, h.count_nonneg, h.total_eq⟩
  | loopCall c => exact consistent_loop H w s c hH h

theorem consistent_run (H w : Nat) (evs : List Event) (s : Watch) (hH : 1 ≤ H)
    (h : Consistent H s) : Consistent H (run H w s evs).1 := by
  induction evs generalizing s with
  | nil => exact h
  | cons e es ih => exact ih _ (consistent_step H w s e hH h)

/-- C1. From the constructed and set-up object, after every sequence of pulses
and calls of `loop()`, `_cpmHistory` has `kHistoryCount` buckets and `_cpm` is their sum. -/
theorem running_total_invariant (kHistoryCount w now : Nat) (evs : List Event)
    (hH : 1 ≤ kHistoryCount) :
    (run kHistoryCount w (initial kHistoryCount now) evs).1._cpmHistory.length = kHistoryCount ∧
    (run kHistoryCount w (initial kHistoryCount now) evs).1._cpm =
      ((List.range kHistoryCount).map fun i =>
        (run kHistoryCount w (initial kHistoryCount now) evs).1._cpmHistory.getD i 0).sum := by
  have h := consistent_run kHistoryCount w evs _ hH (consistent_initial kHistoryCount now hH)
  refine ⟨h.length_eq, ?_⟩
  rw [h.total_eq]
  conv_lhs => rw [← range_map_getD (run kHistoryCount w (initial kHistoryCount now) evs).1._cpmHistory]
  rw [h.length_eq]

theorem running_total_invariant_witness :
    (run 2 16 (initial 2 0)
      [Event.radiationPulse, Event.loopCall ⟨200, 200, 200⟩]).1._cpmHistory.length = 2 ∧
    (run 2 16 (initial 2 0) [Event.radiationPulse, Event.loopCall ⟨200, 200, 200⟩]).1._cpm =
      ((List.range 2).map fun i =>
        (run 2 16 (initial 2 0)
          [Event.radiationPulse, Event.loopCall ⟨200, 200, 200⟩]).1._cpmHistory.getD i 0).sum :=
  running_total_invariant 2 16 0 [Event.radiationPulse, Event.loopCall ⟨200, 200, 200⟩] (by decide)

/-! ## Callbacks leave the measurement alone -/

theorem dispatch_state (s : Watch) :
    (dispatch s).1 =
      { s with
        radiationFlag := s.radiationFlag && !s._radiationCallback
        noiseFlag := s.noiseFlag && !s._noiseCallback } := by
  rcases s with ⟨rc, nc, rf, nf, lt, le, pt, cp, ci, cip, tt, hist, rcb, ncb⟩
  cases rf <;> cases nf <;> cases rcb <;> cases ncb <;> rfl

/-! ## Noise gating -/

/-- C2. A draining call of `loop()` that finds `noiseCount` non-zero leaves `_cpm`, every
bucket, `totalTime`, `cpmIndex` and `cpmIndexPrev` as they were; it resets both
counters and sets `previousTime` to the instant it sampled. -/
theorem noise_gating (kHistoryCount w : Nat) (s : Watch) (c : Clock)
    (hdrain : drains w s c = true) (hnoise : s.noiseCount ≠ 0) :
    (loop kHistoryCount w s c).1._cpm = s._cpm ∧
    (loop kHistoryCount w s c).1._cpmHistory = s._cpmHistory ∧
    (loop kHistoryCount w s c).1.totalTime = s.totalTime ∧
    (loop kHistoryCount w s c).1.cpmIndex = s.cpmIndex ∧
    (loop kHistoryCount w s c).1.cpmIndexPrev = s.cpmIndexPrev ∧
    (loop kHistoryCount w s c).1.radiationCount = 0 ∧
    (loop kHistoryCount w s c).1.noiseCount = 0 ∧
    (loop kHistoryCount w s c).1.previousTime = c.atCurrent % ulongRange := by
  have hd : (tick w s c).loopElasped > 160 := by simpa [drains] using hdrain
  have hn : ¬ (tick w s c).noiseCount = 0 := hnoise
  simp only [loop, if_pos hd, if_neg hn, dispatch_state]
  simp [resetCounters, tick]

theorem noise_gating_witness :
    (loop 2 16 (_onNoiseHandler (_onRadiationHandler (initial 2 0))) ⟨200, 200, 200⟩).1._cpm =
      (_onNoiseHandler (_onRadiationHandler (initial 2 0)))._cpm ∧
    (loop 2 16 (_onNoiseHandler (_onRadiationHandler (initial 2 0))) ⟨200, 200, 200⟩).1._cpmHistory =
      (_onNoiseHandler (_onRadiationHandler (initial 2 0)))._cpmHistory ∧
    (loop 2 16 (_onNoiseHandler (_onRadiationHandler (initial 2 0))) ⟨200, 200, 200⟩).1.totalTime =
      (_onNoiseHandler (_onRadiationHandler (initial 2 0))).totalTime ∧
    (loop 2 16 (_onNoiseHandler (_onRadiationHandler (initial 2 0))) ⟨200, 200, 200⟩).1.cpmIndex =
      (_onNoiseHandler (_onRadiationHandler (initial 2 0))).cpmIndex ∧
    (loop 2 16 (_onNoiseHandler (_onRadiationHandler (initial 2 0))) ⟨200, 200, 200⟩).1.cpmIndexPrev =
      (_onNoiseHandler (_onRadiationHandler (initial 2 0))).cpmIndexPrev ∧
    (loop 2 16 (_onNoiseHandler (_onRadiationHandler (initial 2 0))) ⟨200, 200, 200⟩).1.radiationCount = 0 ∧
    (loop 2 16 (_onNoiseHandler (_onRadiationHandler (initial 2 0))) ⟨200, 200, 200⟩).1.noiseCount = 0 ∧
    (loop 2 16 (_onNoiseHandler (_onRadiationHandler (initial 2 0))) ⟨200, 200, 200⟩).1.previousTime =
      (⟨200, 200, 200⟩ : Clock).atCurrent % ulongRange :=
  noise_gating 2 16 (_onNoiseHandler (_onRadiationHandler (initial 2 0))) ⟨200, 200, 200⟩
    (by decide) (by decide)

/-! ## The dose estimator -/

/-- C4. When the window length `cpmTime()` is not greater than 0, `cpm()`, `uSvh()` and
`uSvhError()` return 0 for every `_cpm`, whatever the division by the window
length would produce: that division is not evaluated. -/
theorem zero_window_safety {F : Type} [LinearOrderedField F] (sqrt : F → F) (dv : F → F → F)
    (_cpm : Int) (min : F) (hmin : ¬ min > 0) :
    cpmWith dv _cpm min = 0 ∧ uSvhWith dv _cpm min = 0 ∧ uSvhErrorWith sqrt dv _cpm min = 0 := by
  simp [cpmWith, uSvhWith, uSvhErrorWith, hmin]

theorem zero_window_safety_witness :
    cpmWith (fun x y : ℚ => x / y) 7 0 = 0 ∧ uSvhWith (fun x y : ℚ => x / y) 7 0 = 0 ∧
      uSvhErrorWith (fun x : ℚ => x) (fun x y : ℚ => x / y) 7 0 = 0 :=
  zero_window_safety (fun x : ℚ => x) (fun x y : ℚ => x / y) 7 0 (by norm_num)

/-- C5. Over the reals, for a positive running total `N` and a window length `m > 0`,
`uSvhError()` is `sqrt(N) / m / 53.032`. -/
theorem dose_error_formula (N : Int) (m : ℝ) (_hN : 0 < N) (hm : 0 < m) :
    uSvhError Real.sqrt N m = Real.sqrt (N : ℝ) / m / 53.032 := by
  simp [uSvhError, uSvhErrorWith, kAlpha, hm]

theorem dose_error_formula_witness :
    uSvhError Real.sqrt 4 (2 : ℝ) = Real.sqrt ((4 : Int) : ℝ) / 2 / 53.032 :=
  dose_error_formula 4 2 (by norm_num) (by norm_num)

/-- C6. For every running total `N` and window length `m > 0`, `cpm()` is `N / m` and
`uSvh()` is `cpm() / 53.032 = N / m / 53.032`, over any ordered field (the
rationals, the reals). -/
theorem dose_rate_formula {F : Type} [LinearOrderedField F] (N : Int) (m : F) (hm : 0 < m) :
    cpm N m = (N : F) / m ∧ uSvh N m = cpm N m / 53.032 ∧ uSvh N m = (N : F) / m / 53.032 := by
  simp [cpm, uSvh, uSvhWith, cpmWith, kAlpha, hm]

theorem dose_rate_formula_witness :
    cpm 120 (2 : ℚ) = ((120 : Int) : ℚ) / 2 ∧ uSvh 120 (2 : ℚ) = cpm 120 (2 : ℚ) / 53.032 ∧
      uSvh 120 (2 : ℚ) = ((120 : Int) : ℚ) / 2 / 53.032 :=
  dose_rate_formula 120 2 (by norm_num)

/-! ## Calls below the threshold -/

theorem loop_idle (H w : Nat) (s : Watch) (c : Clock) (h : drains w s c = false) :
    loop H w s c = (tick w s c, []) := by
  have hd : ¬ (tick w s c).loopElasped > 160 := by simpa [drains] using h
  simp only [loop, if_neg hd]

/-- C8. Calls of `loop()` after which `loopElasped` is not greater than 160 change none
of `_cpm`, `_cpmHistory`, `cpmIndex`, `cpmIndexPrev`, `totalTime`, `previousTime`,
`radiationCount`, `noiseCount` and the two flags, and invoke no callback, however
many of them follow one another. -/
theorem threshold_debounce_idle (kHistoryCount w : Nat) (cs : List Clock) (s : Watch)
    (hidle : quiet kHistoryCount w s (cs.map Event.loopCall) = true) :
    (run kHistoryCount w s (cs.map Event.loopCall)).2 = [] ∧
    (run kHistoryCount w s (cs.map Event.loopCall)).1._cpm = s._cpm ∧
    (run kHistoryCount w s (cs.map Event.loopCall)).1._cpmHistory = s._cpmHistory ∧
    (run kHistoryCount w s (cs.map Event.loopCall)).1.cpmIndex = s.cpmIndex ∧
    (run kHistoryCount w s (cs.map Event.loopCall)).1.cpmIndexPrev = s.cpmIndexPrev ∧
    (run kHistoryCount w s (cs.map Event.loopCall)).1.totalTime = s.totalTime ∧
    (run kHistoryCount w s (cs.map Event.loopCall)).1.previousTime = s.previousTime ∧
    (run kHistoryCount w s (cs.map Event.loopCall)).1.radiationCount = s.radiationCount ∧
    (run kHistoryCount w s (cs.map Event.loopCall)).1.noiseCount = s.noiseCount ∧
    (run kHistoryCount w s (cs.map Event.loopCall)).1.radiationFlag = s.radiationFlag ∧
    (run kHistoryCount w s (cs.map Event.loopCall)).1.noiseFlag = s.noiseFlag := by
  induction cs generalizing s with
  | nil => simp [run]
  | cons c cs ih =>
    simp only [List.map_cons, quiet, Bool.and_eq_true, Bool.not_eq_true'] at hidle
    have hl := loop_idle kHistoryCount w s c hidle.1
    have h := ih (loop kHistoryCount w s c).1 hidle.2
    simp only [List.map_cons, run, step]
    rw [hl] at h ⊢
    simpa [tick] using h

theorem threshold_debounce_idle_witness :
    (run 2 16 (_onRadiationHandler (initial 2 0))
      ([⟨50, 50, 50⟩, ⟨100, 100, 100⟩, ⟨160, 160, 160⟩].map Event.loopCall)).2 = [] ∧
    (run 2 16 (_onRadiationHandler (initial 2 0))
      ([⟨50, 50, 50⟩, ⟨100, 100, 100⟩, ⟨160, 160, 160⟩].map Event.loopCall)).1._cpm =
        (_onRadiationHandler (initial 2 0))._cpm ∧
    (run 2 16 (_onRadiationHandler (initial 2 0))
      ([⟨50, 50, 50⟩, ⟨100, 100, 100⟩, ⟨160, 160, 160⟩].map Event.loopCall)).1._cpmHistory =
        (_onRadiationHandler (initial 2 0))._cpmHistory ∧
    (run 2 16 (_onRadiationHandler (initial 2 0))
      ([⟨50, 50, 50⟩, ⟨100, 100, 100⟩, ⟨160, 160, 160⟩].map Event.loopCall)).1.cpmIndex =
        (_onRadiationHandler (initial 2 0)).cpmIndex ∧
    (run 2 16 (_onRadiationHandler (initial 2 0))
      ([⟨50, 50, 50⟩, ⟨100, 100, 100⟩, ⟨160, 160, 160⟩].map Event.loopCall)).1.cpmIndexPrev =
        (_onRadiationHandler (initial 2 0)).cpmIndexPrev ∧
    (run 2 16 (_onRadiationHandler (initial 2 0))
      ([⟨50, 50, 50⟩, ⟨100, 100, 100⟩, ⟨160, 160, 160⟩].map Event.loopCall)).1.totalTime =
        (_onRadiationHandler (initial 2 0)).totalTime ∧
    (run 2 16 (_onRadiationHandler (initial 2 0))
      ([⟨50, 50, 50⟩, ⟨100, 100, 100⟩, ⟨160, 160, 160⟩].map Event.loopCall)).1.previousTime =
        (_onRadiationHandler (initial 2 0)).previousTime ∧
    (run 2 16 (_onRadiationHandler (initial 2 0))
      ([⟨50, 50, 50⟩, ⟨100, 100, 100⟩, ⟨160, 160, 160⟩].map Event.loopCall)).1.radiationCount =
        (_onRadiationHandler (initial 2 0)).radiationCount ∧
    (run 2 16 (_onRadiationHandler (initial 2 0))
      ([⟨50, 50, 50⟩, ⟨100, 100, 100⟩, ⟨160, 160, 160⟩].map Event.loopCall)).1.noiseCount =
        (_onRadiationHandler (initial 2 0)).noiseCount ∧
    (run 2 16 (_onRadiationHandler (initial 2 0))
      ([⟨50, 50, 50⟩, ⟨100, 100, 100⟩, ⟨160, 160, 160⟩].map Event.loopCall)).1.radiationFlag =
        (_onRadiationHandler (initial 2 0)).radiationFlag ∧
    (run 2 16 (_onRadiationHandler (initial 2 0))
      ([⟨50, 50, 50⟩, ⟨100, 100, 100⟩, ⟨160, 160, 160⟩].map Event.loopCall)).1.noiseFlag =
        (_onRadiationHandler (initial 2 0)).noiseFlag :=
  threshold_debounce_idle 2 16 [⟨50, 50, 50⟩, ⟨100, 100, 100⟩, ⟨160, 160, 160⟩]
    (_onRadiationHandler (initial 2 0)) (by decide)

/-! ## One drain per crossing of the threshold -/

/-- After a noise-free drain `loopElasped` restarts from 0 (line 101). -/
theorem noise_free_drain_restarts (kHistoryCount w : Nat) (s : Watch) (c : Clock)
    (hdrain : drains w s c = true) (hnoise : s.noiseCount = 0) :
    (loop kHistoryCount w s c).1.loopElasped = 0 := by
  have hd : (tick w s c).loopElasped > 160 := by simpa [drains] using hdrain
  have hn : (tick w s c).noiseCount = 0 := hnoise
  simp only [loop, if_pos hd, if_pos hn, dispatch_state]
  simp [resetCounters, accumulate]

/-- C9. One noise pulse after setup, a call of `loop()` at 200 ms and one at 201 ms:
the first call drains and finds noise, `loopElasped` is left at 200 and not
restarted, and the call one millisecond later drains again. -/
theorem noisy_drain_not_restarted :
    drains 16 (_onNoiseHandler (initial 2 0)) ⟨200, 200, 200⟩ = true ∧
    (_onNoiseHandler (initial 2 0)).noiseCount ≠ 0 ∧
    (loop 2 16 (_onNoiseHandler (initial 2 0)) ⟨200, 200, 200⟩).1.loopElasped = 200 ∧
    drains 16 (loop 2 16 (_onNoiseHandler (initial 2 0)) ⟨200, 200, 200⟩).1 ⟨201, 201, 201⟩ = true := by
  decide

/-! ## Coalescing of the callbacks -/

theorem radiationPulses_state (n : Nat) (s : Watch) :
    radiationPulses n s =
      { s with
        radiationCount := s.radiationCount + n
        radiationFlag := if n = 0 then s.radiationFlag else true } := by
  induction n generalizing s with
  | zero => simp [radiationPulses]
  | succ k ih =>
    rw [radiationPulses, ih]
    simp only [_onRadiationHandler, Nat.cast_add, Nat.cast_one]
    congr 1
    · ring
    · by_cases hk : k = 0 <;> simp [hk]

theorem getD_set_self (l : List Int) (i : Nat) (v : Int) (h : i < l.length) :
    (l.set i v).getD i 0 = v := by
  rw [List.getD_eq_getElem _ _ (by simpa using h)]
  simp

theorem castInt_of_lt (w T : Nat) (h : T < 2 ^ (w - 1)) : castInt w T = (T : Int) := by
  have hle : 2 ^ (w - 1) ≤ 2 ^ w := Nat.pow_le_pow_right (by decide) (Nat.sub_le w 1)
  have hm : T % 2 ^ w = T := Nat.mod_eq_of_lt (by omega)
  unfold castInt
  rw [hm, if_pos h]

theorem wrapInt_of_range (w : Nat) (x : Int) (h0 : 0 ≤ x) (h : x < ((2 ^ (w - 1) : Nat) : Int)) :
    wrapInt w x = x := by
  have hle : 2 ^ (w - 1) ≤ 2 ^ w := Nat.pow_le_pow_right (by decide) (Nat.sub_le w 1)
  have hx : x.toNat < 2 ^ (w - 1) := by omega
  have hm : x % ((2 ^ w : Nat) : Int) = x := Int.emod_eq_of_lt h0 (by omega)
  unfold wrapInt
  rw [hm, castInt_of_lt w _ hx]
  omega

theorem radiationPulsesInt_eq (w n : Nat) (s : Watch) (h0 : 0 ≤ s.radiationCount)
    (h : s.radiationCount + n < ((2 ^ (w - 1) : Nat) : Int)) :
    radiationPulsesInt w n s = radiationPulses n s := by
  induction n generalizing s with
  | zero => rfl
  | succ k ih =>
    have e : _onRadiationHandlerInt w s = _onRadiationHandler s := by
      simp only [_onRadiationHandlerInt, _onRadiationHandler]
      rw [wrapInt_of_range w _ (by omega) (by omega)]
    rw [radiationPulsesInt, radiationPulses, e]
    apply ih
    · simp only [_onRadiationHandler]; omega
    · simp only [_onRadiationHandler]; omega

theorem radiationPulsesInt_succ (w n : Nat) (s : Watch) :
    radiationPulsesInt w (n + 1) s = _onRadiationHandlerInt w (radiationPulsesInt w n s) := by
  induction n generalizing s with
  | zero => rfl
  | succ k ih =>
    rw [radiationPulsesInt, ih]
    rfl

theorem overflowed_count :
    radiationPulsesInt 16 32768 registered =
      { registered with radiationCount := -32768, radiationFlag := true } := by
  have e : (32768 : Nat) = 32767 + 1 := rfl
  rw [e, radiationPulsesInt_succ, radiationPulsesInt_eq 16 32767 registered (by decide) (by decide),
    radiationPulses_state]
  decide

/-- C7 as stated fails in two ways.  When the draining call rotates onto a bucket that
still holds counts: after twelve seconds of measurement with two buckets `_cpm`
is 3; five pulses and a draining call later it is 5, not 8.  When the `int`
counter overflows: on the 16-bit target 32768 pulses after a drain leave
`radiationCount = -32768`, and the next draining call adds -32768, not 32768. -/
theorem callback_coalescing_counterexample :
    (twelveSeconds.radiationCount = 0 ∧ twelveSeconds.noiseCount = 0 ∧
      twelveSeconds._radiationCallback = true ∧
      drains 16 (radiationPulsesInt 16 5 twelveSeconds) ⟨12750, 12750, 12750⟩ = true ∧
      (loop 2 16 (radiationPulsesInt 16 5 twelveSeconds) ⟨12750, 12750, 12750⟩).2 =
        [Callback.radiation] ∧
      twelveSeconds._cpm = 3 ∧
      (loop 2 16 (radiationPulsesInt 16 5 twelveSeconds) ⟨12750, 12750, 12750⟩).1._cpm = 5 ∧
      (loop 2 16 (radiationPulsesInt 16 5 twelveSeconds) ⟨12750, 12750, 12750⟩).1._cpm ≠
        twelveSeconds._cpm + 5) ∧
    (registered.radiationCount = 0 ∧ registered.noiseCount = 0 ∧
      registered._radiationCallback = true ∧ rotates 16 registered = false ∧
      drains 16 (radiationPulsesInt 16 32768 registered) ⟨400, 400, 400⟩ = true ∧
      (radiationPulsesInt 16 32768 registered).radiationCount = -32768 ∧
      (loop 2 16 (radiationPulsesInt 16 32768 registered) ⟨400, 400, 400⟩).1._cpm = -32768 ∧
      (loop 2 16 (radiationPulsesInt 16 32768 registered) ⟨400, 400, 400⟩).1._cpm ≠
        registered._cpm + 32768) := by
  refine ⟨by decide, ?_⟩
  rw [overflowed_count]
  decide

theorem drained_state (H w : Nat) (s : Watch) (c : Clock) (hdrain : drains w s c = true)
    (hnoise : s.noiseCount = 0) :
    (loop H w s c).1 =
      (dispatch (resetCounters (accumulate (rotate H w (tick w s c)) (c.atCurrent % ulongRange))
        (c.atCurrent % ulongRange))).1 ∧
    (loop H w s c).2 =
      (dispatch (resetCounters (accumulate (rotate H w (tick w s c)) (c.atCurrent % ulongRange))
        (c.atCurrent % ulongRange))).2 := by
  have hd : (tick w s c).loopElasped > 160 := by simpa [drains] using hdrain
  have hn : (tick w s c).noiseCount = 0 := hnoise
  simp only [loop, if_pos hd, if_pos hn, and_self]

theorem rotate_of_not (H w : Nat) (s : Watch) (h : rotates w s = false) : rotate H w s = s := by
  simp [rotate, h]

theorem rotate_of (H w : Nat) (s : Watch) (h : rotates w s = true) :
    rotate H w s =
      { s with
        cpmIndexPrev := totalTimeSec w s
        cpmIndex := nextIndex H s.cpmIndex
        _cpm := if s._cpmHistory.getD (nextIndex H s.cpmIndex) 0 > 0
          then s._cpm - s._cpmHistory.getD (nextIndex H s.cpmIndex) 0 else s._cpm
        _cpmHistory := s._cpmHistory.set (nextIndex H s.cpmIndex) 0 } := by
  simp [rotate, h]

/-- Coalescing when `n` pulses have been counted exactly. -/
theorem coalescing_of_count (kHistoryCount w n : Nat) (s : Watch) (c : Clock)
    (hn : 1 ≤ n) (hrad : s.radiationCount = 0) (hnoise : s.noiseCount = 0)
    (hcb : s._radiationCallback = true) (hH : 1 ≤ kHistoryCount)
    (hlen : s._cpmHistory.length = kHistoryCount) (hidx : s.cpmIndex < kHistoryCount)
    (hdrain : drains w (radiationPulses n s) c = true) :
    (loop kHistoryCount w (radiationPulses n s) c).2.count Callback.radiation = 1 ∧
    (rotates w s = false →
      (loop kHistoryCount w (radiationPulses n s) c).1.cpmIndex = s.cpmIndex ∧
      (loop kHistoryCount w (radiationPulses n s) c).1._cpm = s._cpm + n ∧
      (loop kHistoryCount w (radiationPulses n s) c).1._cpmHistory.getD s.cpmIndex 0 =
        s._cpmHistory.getD s.cpmIndex 0 + n) ∧
    (rotates w s = true →
      (loop kHistoryCount w (radiationPulses n s) c).1.cpmIndex =
        nextIndex kHistoryCount s.cpmIndex ∧
      (loop kHistoryCount w (radiationPulses n s) c).1._cpm =
        s._cpm - (if s._cpmHistory.getD (nextIndex kHistoryCount s.cpmIndex) 0 > 0
          then s._cpmHistory.getD (nextIndex kHistoryCount s.cpmIndex) 0 else 0) + n ∧
      (loop kHistoryCount w (radiationPulses n s) c).1._cpmHistory.getD
        (nextIndex kHistoryCount s.cpmIndex) 0 = n) := by
  have hn0 : n ≠ 0 := by omega
  have hnz : (radiationPulses n s).noiseCount = 0 := by
    rw [radiationPulses_state]; exact hnoise
  obtain ⟨h1, h2⟩ := drained_state kHistoryCount w _ c hdrain hnz
  rw [h1, h2, dispatch_state]
  generalize hu : tick w (radiationPulses n s) c = u
  have hu' : u = tick w (radiationPulses n s) c := hu.symm
  rw [radiationPulses_state] at hu'
  have e1 : u.radiationCount = n := by rw [hu']; simp [tick, hrad]
  have e2 : u._cpm = s._cpm := by rw [hu']; rfl
  have e3 : u._cpmHistory = s._cpmHistory := by rw [hu']; rfl
  have e4 : u.cpmIndex = s.cpmIndex := by rw [hu']; rfl
  have e5 : rotates w u = rotates w s := by rw [hu']; rfl
  have e6 : u._radiationCallback = true := by rw [hu']; exact hcb
  have e7 : u.radiationFlag = true := by rw [hu']; simp [tick, hn0]
  have hnext := nextIndex_lt kHistoryCount s.cpmIndex hH
  refine ⟨?_, ?_, ?_⟩
  · have f1 : ∀ v : Watch, (rotate kHistoryCount w v)._radiationCallback = v._radiationCallback ∧
        (rotate kHistoryCount w v).radiationFlag = v.radiationFlag := by
      intro v
      unfold rotate
      split <;> exact ⟨rfl, rfl⟩
    have f2 := f1 u
    simp only [dispatch, dispatchRadiation, dispatchNoise, resetCounters, accumulate, f2.1, f2.2,
      e6, e7, Bool.and_self, if_true]
    split <;> simp
  · intro hr
    rw [rotate_of_not _ _ _ (e5.trans hr)]
    simp only [accumulate, resetCounters, e1, e2, e3, e4]
    refine ⟨trivial, trivial, ?_⟩
    rw [getD_set_self _ _ _ (by omega)]
  · intro hr
    rw [rotate_of _ _ _ (e5.trans hr)]
    simp only [accumulate, resetCounters, e1, e2, e3, e4]
    refine ⟨trivial, ?_, ?_⟩
    · split <;> ring
    · rw [getD_set_self _ _ _ (by simp; omega), getD_set_self _ _ _ (by omega)]
      simp

/-- C7 (amended). After a drain (both counters 0) the radiation handler, with its
`int` counter of `w` bits, runs `n` times, `1 <= n < 2^(w-1)` (the counter does
not overflow), and a radiation callback is registered: the next draining call of
`loop()` invokes the radiation callback exactly once and adds `n` to `_cpm` and to
the current bucket as the rotation step of that call leaves them.  Without a
rotation `_cpm` and the current bucket each grow by `n`; with a rotation the new
current bucket becomes `n` and `_cpm` becomes its old value, less the positive
content evicted from that bucket, plus `n`. -/
theorem callback_coalescing (kHistoryCount w n : Nat) (s : Watch) (c : Clock)
    (hn : 1 ≤ n) (hfit : n < 2 ^ (w - 1)) (hrad : s.radiationCount = 0)
    (hnoise : s.noiseCount = 0) (hcb : s._radiationCallback = true) (hH : 1 ≤ kHistoryCount)
    (hlen : s._cpmHistory.length = kHistoryCount) (hidx : s.cpmIndex < kHistoryCount)
    (hdrain : drains w (radiationPulsesInt w n s) c = true) :
    (loop kHistoryCount w (radiationPulsesInt w n s) c).2.count Callback.radiation = 1 ∧
    (rotates w s = false →
      (loop kHistoryCount w (radiationPulsesInt w n s) c).1.cpmIndex = s.cpmIndex ∧
      (loop kHistoryCount w (radiationPulsesInt w n s) c).1._cpm = s._cpm + n ∧
      (loop kHistoryCount w (radiationPulsesInt w n s) c).1._cpmHistory.getD s.cpmIndex 0 =
        s._cpmHistory.getD s.cpmIndex 0 + n) ∧
    (rotates w s = true →
      (loop kHistoryCount w (radiationPulsesInt w n s) c).1.cpmIndex =
        nextIndex kHistoryCount s.cpmIndex ∧
      (loop kHistoryCount w (radiationPulsesInt w n s) c).1._cpm =
        s._cpm - (if s._cpmHistory.getD (nextIndex kHistoryCount s.cpmIndex) 0 > 0
          then s._cpmHistory.getD (nextIndex kHistoryCount s.cpmIndex) 0 else 0) + n ∧
      (loop kHistoryCount w (radiationPulsesInt w n s) c).1._cpmHistory.getD
        (nextIndex kHistoryCount s.cpmIndex) 0 = n) := by
  have e : radiationPulsesInt w n s = radiationPulses n s :=
    radiationPulsesInt_eq w n s (by omega) (by rw [hrad, zero_add]; exact_mod_cast hfit)
  rw [e] at hdrain ⊢
  exact coalescing_of_count kHistoryCount w n s c hn hrad hnoise hcb hH hlen hidx hdrain

theorem callback_coalescing_witness :
    (loop 2 16 (radiationPulsesInt 16 5 twelveSeconds) ⟨12750, 12750, 12750⟩).2.count
      Callback.radiation = 1 ∧
    (rotates 16 twelveSeconds = true →
      (loop 2 16 (radiationPulsesInt 16 5 twelveSeconds) ⟨12750, 12750, 12750⟩).1.cpmIndex =
        nextIndex 2 twelveSeconds.cpmIndex ∧
      (loop 2 16 (radiationPulsesInt 16 5 twelveSeconds) ⟨12750, 12750, 12750⟩).1._cpm =
        twelveSeconds._cpm -
          (if twelveSeconds._cpmHistory.getD (nextIndex 2 twelveSeconds.cpmIndex) 0 > 0
            then twelveSeconds._cpmHistory.getD (nextIndex 2 twelveSeconds.cpmIndex) 0 else 0) +
          (5 : Nat) ∧
      (loop 2 16 (radiationPulsesInt 16 5 twelveSeconds) ⟨12750, 12750, 12750⟩).1._cpmHistory.getD
        (nextIndex 2 twelveSeconds.cpmIndex) 0 = (5 : Nat)) :=
  ⟨(callback_coalescing 2 16 5 twelveSeconds ⟨12750, 12750, 12750⟩ (by decide) (by decide)
      (by decide) (by decide) (by decide) (by decide) (by decide) (by decide) (by decide)).1,
    (callback_coalescing 2 16 5 twelveSeconds ⟨12750, 12750, 12750⟩ (by decide) (by decide)
      (by decide) (by decide) (by decide) (by decide) (by decide) (by decide) (by decide)).2.2⟩

/-! ## Accounting of the elapsed time -/

theorem subUL_lt (a b : Nat) : subUL a b < ulongRange :=
  Nat.mod_lt _ (by decide)

theorem absUL_subUL (a b : Nat) : absUL (subUL a b) = subUL a b := by
  unfold absUL
  split
  · rfl
  · have h : subUL a b = 0 := by omega
    rw [h]
    decide

theorem subUL_of_le (a b : Nat) (hb : b ≤ a) (ha : a < ulongRange) : subUL a b = a - b := by
  unfold subUL
  have hr : ulongRange = 4294967296 := by decide
  rw [hr] at ha ⊢
  omega

theorem subUL_mod_left (a b : Nat) : subUL (a % ulongRange) b = subUL a b := by
  unfold subUL
  rw [Nat.mod_mod]

theorem drain_previousTime (H w : Nat) (s : Watch) (c : Clock) (hdrain : drains w s c = true) :
    (loop H w s c).1.previousTime = c.atCurrent % ulongRange := by
  have hd : (tick w s c).loopElasped > 160 := by simpa [drains] using hdrain
  simp only [loop, if_pos hd, dispatch_state]
  simp [resetCounters]

theorem quiet_times (H w : Nat) (evs : List Event) (s : Watch) (h : quiet H w s evs = true) :
    (run H w s evs).1.previousTime = s.previousTime ∧
    (run H w s evs).1.totalTime = s.totalTime := by
  induction evs generalizing s with
  | nil => exact ⟨rfl, rfl⟩
  | cons e es ih =>
    cases e with
    | radiationPulse => exact ih _ h
    | noisePulse => exact ih _ h
    | loopCall c =>
      simp only [quiet, Bool.and_eq_true, Bool.not_eq_true'] at h
      have hl := loop_idle H w s c h.1
      have h2 := ih _ h.2
      simp only [run, step]
      rw [hl] at h2 ⊢
      exact h2

/-- C10 (amended). On a noise-free draining call of `loop()`, `totalTime` grows (modulo
2^32) by `currentTime` minus the instant sampled by the previous draining call,
noisy or noise-free, or by `setup()` when no call has drained yet; no drain lies
between that instant and the call. -/
theorem elapsed_time_accounting (kHistoryCount w : Nat) (s1 : Watch) (t : Nat)
    (evs : List Event) (b : Clock)
    (horigin : (∃ s0 now, s1 = setup kHistoryCount s0 now ∧ t = now % ulongRange) ∨
      (∃ s a, drains w s a = true ∧ s1 = (loop kHistoryCount w s a).1 ∧
        t = a.atCurrent % ulongRange))
    (hquiet : quiet kHistoryCount w s1 evs = true)
    (hdrain : drains w (run kHistoryCount w s1 evs).1 b = true)
    (hnoise : (run kHistoryCount w s1 evs).1.noiseCount = 0) :
    (loop kHistoryCount w (run kHistoryCount w s1 evs).1 b).1.totalTime =
      ((run kHistoryCount w s1 evs).1.totalTime + subUL b.atCurrent t) % ulongRange ∧
    (t ≤ b.atCurrent % ulongRange →
      (run kHistoryCount w s1 evs).1.totalTime + (b.atCurrent % ulongRange - t) < ulongRange →
      (loop kHistoryCount w (run kHistoryCount w s1 evs).1 b).1.totalTime =
        (run kHistoryCount w s1 evs).1.totalTime + (b.atCurrent % ulongRange - t)) := by
  have hprev : s1.previousTime = t := by
    rcases horigin with ⟨s0, now, h1, h2⟩ | ⟨s, a, h0, h1, h2⟩
    · rw [h1, h2]; rfl
    · rw [h1, h2]; exact drain_previousTime kHistoryCount w s a h0
  have hq := quiet_times kHistoryCount w evs s1 hquiet
  generalize run kHistoryCount w s1 evs = r at hq hdrain hnoise ⊢
  have hrot : ∀ v : Watch, (rotate kHistoryCount w v).totalTime = v.totalTime ∧
      (rotate kHistoryCount w v).previousTime = v.previousTime := by
    intro v
    unfold rotate
    split <;> exact ⟨rfl, rfl⟩
  have hmain : (loop kHistoryCount w r.1 b).1.totalTime =
      (r.1.totalTime + subUL b.atCurrent t) % ulongRange := by
    rw [(drained_state kHistoryCount w r.1 b hdrain hnoise).1, dispatch_state]
    simp only [resetCounters, accumulate, (hrot _).1, (hrot _).2, absUL_subUL, subUL_mod_left]
    simp only [tick, hq.1, hprev]
  refine ⟨hmain, ?_⟩
  intro hle hfit
  rw [hmain, ← subUL_mod_left, subUL_of_le _ _ hle (Nat.mod_lt _ (by decide))]
  exact Nat.mod_eq_of_lt hfit

theorem elapsed_time_accounting_witness :
    (loop 2 16 (run 2 16 afterNoisyDrain [Event.radiationPulse]).1 ⟨400, 400, 400⟩).1.totalTime =
      ((run 2 16 afterNoisyDrain [Event.radiationPulse]).1.totalTime +
        subUL (⟨400, 400, 400⟩ : Clock).atCurrent 200) % ulongRange ∧
    (200 ≤ (⟨400, 400, 400⟩ : Clock).atCurrent % ulongRange →
      (run 2 16 afterNoisyDrain [Event.radiationPulse]).1.totalTime +
        ((⟨400, 400, 400⟩ : Clock).atCurrent % ulongRange - 200) < ulongRange →
      (loop 2 16 (run 2 16 afterNoisyDrain [Event.radiationPulse]).1 ⟨400, 400, 400⟩).1.totalTime =
        (run 2 16 afterNoisyDrain [Event.radiationPulse]).1.totalTime +
          ((⟨400, 400, 400⟩ : Clock).atCurrent % ulongRange - 200)) :=
  elapsed_time_accounting 2 16 afterNoisyDrain 200 [Event.radiationPulse] ⟨400, 400, 400⟩
    (Or.inr ⟨_onNoiseHandler (initial 2 0), ⟨200, 200, 200⟩, by decide, rfl, by decide⟩)
    (by decide) (by decide) (by decide)

/-- C10 as stated fails after a noisy drain: set up at instant 0, a noisy drain at
200 ms, then a noise-free drain at 400 ms, the first one.  `totalTime` grows by
200 ms, the time since the noisy drain, not by the 400 ms since `setup()`. -/
theorem elapsed_time_accounting_counterexample :
    (initial 2 0).previousTime = 0 ∧
    drains 16 (_onNoiseHandler (initial 2 0)) ⟨200, 200, 200⟩ = true ∧
    (_onNoiseHandler (initial 2 0)).noiseCount ≠ 0 ∧
    drains 16 afterNoisyDrain ⟨400, 400, 400⟩ = true ∧
    afterNoisyDrain.noiseCount = 0 ∧
    afterNoisyDrain.totalTime = 0 ∧
    (loop 2 16 afterNoisyDrain ⟨400, 400, 400⟩).1.totalTime = 200 ∧
    (loop 2 16 afterNoisyDrain ⟨400, 400, 400⟩).1.totalTime ≠
      afterNoisyDrain.totalTime + (400 - 0) := by
  decide

/-! ## Aging of the window -/

/-- C3. Five buckets and a 16-bit `int` (ATmega328): a noise-free run of 48 polling
cycles of 750 ms gives each of the six bucket periods of 36 s of measured time
exactly one pulse.  At the end `_cpm` is 4, not `1 * 5`: from 32.768 s on
`(int) totalTime` is negative and the buckets are shifted at the wrong moments. -/
theorem window_aging_fails_16bit :
    regular 5 16 (6000 * (5 + 1)) (initial 5 0) thirtySixSeconds = true ∧
    (∀ k ∈ List.range (5 + 1), pulsesIn 5 16 k (initial 5 0) thirtySixSeconds = 1) ∧
    (run 5 16 (initial 5 0) thirtySixSeconds).1.totalTime = 6000 * (5 + 1) ∧
    (run 5 16 (initial 5 0) thirtySixSeconds).1._cpmHistory = [1, 0, 1, 1, 1] ∧
    (run 5 16 (initial 5 0) thirtySixSeconds).1._cpm = 4 ∧
    (run 5 16 (initial 5 0) thirtySixSeconds).1._cpm ≠ 1 * 5 := by
  decide

theorem totalTimeSec_of_lt (w : Nat) (s : Watch) (h : s.totalTime < 2 ^ (w - 1)) :
    totalTimeSec w s = ((s.totalTime / 1000 : Nat) : Int) := by
  unfold totalTimeSec
  rw [castInt_of_lt w _ h]
  rfl

theorem rotates_of_lt (w : Nat) (s : Watch) (k : Nat) (h : s.totalTime < 2 ^ (w - 1))
    (hprev : s.cpmIndexPrev = ((6 * k : Nat) : Int)) :
    rotates w s = (decide (s.totalTime / 1000 % 6 = 0) && decide (6 * k ≠ s.totalTime / 1000)) := by
  unfold rotates
  rw [totalTimeSec_of_lt w s h, hprev]
  congr 1
  · have : Int.tmod ((s.totalTime / 1000 : Nat) : Int) 6 = ((s.totalTime / 1000 % 6 : Nat) : Int) := rfl
    rw [this]
    simp only [decide_eq_decide]
    omega
  · simp only [decide_eq_decide]
    omega

theorem mod_ne_of_lt (j k H : Nat) (h1 : j < k) (h2 : k < j + H) : j % H ≠ k % H := by
  intro h
  have h3 : (k - j) % H = 0 := Nat.sub_mod_eq_zero_of_mod_eq h.symm
  have h4 : k - j = 0 := Nat.eq_zero_of_dvd_of_lt (Nat.dvd_of_mod_eq_zero h3) (by omega)
  omega

theorem nextIndex_mod (H k : Nat) (hH : 1 ≤ H) : nextIndex H (k % H) = (k + 1) % H := by
  have hlt : k % H < H := Nat.mod_lt _ hH
  unfold nextIndex
  split
  · have he : k % H + 1 = H := by omega
    have : (k + 1) % H = (k % H + 1) % H := by
      rw [Nat.add_mod]
      by_cases h1 : H = 1
      · subst h1; simp
      · rw [Nat.mod_eq_of_lt (show 1 < H by omega)]
    rw [this, he, Nat.mod_self]
  · have : (k + 1) % H = (k % H + 1) % H := by
      rw [Nat.add_mod]
      rw [Nat.mod_eq_of_lt (show 1 < H by omega)]
    rw [this, Nat.mod_eq_of_lt (show k % H + 1 < H by omega)]

theorem getD_set_other (l : List Int) (i j : Nat) (v : Int) (h : i ≠ j) :
    (l.set i v).getD j 0 = l.getD j 0 := by
  simp [List.getD_eq_getElem?_getD, List.getElem?_set_ne h]

theorem drained_fields (H w : Nat) (s : Watch) (c : Clock) (hdrain : drains w s c = true)
    (hnoise : s.noiseCount = 0) :
    (loop H w s c).1._cpm =
      (accumulate (rotate H w (tick w s c)) (c.atCurrent % ulongRange))._cpm ∧
    (loop H w s c).1._cpmHistory =
      (accumulate (rotate H w (tick w s c)) (c.atCurrent % ulongRange))._cpmHistory ∧
    (loop H w s c).1.cpmIndex =
      (accumulate (rotate H w (tick w s c)) (c.atCurrent % ulongRange)).cpmIndex ∧
    (loop H w s c).1.cpmIndexPrev =
      (accumulate (rotate H w (tick w s c)) (c.atCurrent % ulongRange)).cpmIndexPrev ∧
    (loop H w s c).1.totalTime =
      (accumulate (rotate H w (tick w s c)) (c.atCurrent % ulongRange)).totalTime ∧
    (loop H w s c).1.radiationCount = 0 := by
  rw [(drained_state H w s c hdrain hnoise).1, dispatch_state]
  exact ⟨rfl, rfl, rfl, rfl, rfl, rfl⟩

theorem window_shift (P : Nat → Int) (H k : Nat) (hH : 1 ≤ H) (hfut : P (k + 1) = 0) :
    ∑ j in Finset.Icc (k + 1 + 1 - H) (k + 1), P j =
      ∑ j in Finset.Icc (k + 1 - H) k, P j - (if H ≤ k + 1 then P (k + 1 - H) else 0) := by
  rw [Finset.sum_Icc_succ_top (by omega), hfut, add_zero]
  by_cases h : H ≤ k + 1
  · have e : k + 1 + 1 - H = (k + 1 - H).succ := by omega
    rw [if_pos h, e, Nat.Icc_succ_left, ← Finset.add_sum_Ioc_eq_sum_Icc (show k + 1 - H ≤ k by omega)]
    ring
  · have e1 : k + 1 + 1 - H = 0 := by omega
    have e2 : k + 1 - H = 0 := by omega
    rw [if_neg h, e1, e2, sub_zero]

theorem window_add (P : Nat → Int) (a k : Nat) (v : Int) (ha : a ≤ k) :
    ∑ j in Finset.Icc a k, (P j + if k = j then v else 0) = ∑ j in Finset.Icc a k, P j + v := by
  rw [Finset.sum_add_distrib, Finset.sum_ite_eq, if_pos (Finset.mem_Icc.mpr ⟨ha, le_refl k⟩)]

theorem aging_drain (H w limit : Nat) (s : Watch) (c : Clock) (P : Nat → Int) (k : Nat)
    (hH : 1 ≤ H) (hw : w ≤ 32) (hrange : limit + 1000 ≤ 2 ^ (w - 1))
    (h : Aging H limit s P k) (hdrain : drains w s c = true) (hnoise : s.noiseCount = 0)
    (hshort : absUL (subUL (c.atCurrent % ulongRange) s.previousTime) < 1000)
    (hlim : s.totalTime < limit) :
    ∃ k', Aging H limit (loop H w s c).1
      (fun j => P j + if s.totalTime / 6000 = j then s.radiationCount else 0) k' := by
  obtain ⟨f1, f2, f3, f4, f5, f6⟩ := drained_fields H w s c hdrain hnoise
  have hpow : 2 ^ (w - 1) ≤ 2 ^ 31 := Nat.pow_le_pow_right (by decide) (by omega)
  have hul : ulongRange = 4294967296 := by decide
  have hp31 : (2 : Nat) ^ 31 = 2147483648 := by decide
  have hT : (tick w s c).totalTime < 2 ^ (w - 1) := by
    show s.totalTime < 2 ^ (w - 1)
    omega
  have hrw := rotates_of_lt w (tick w s c) k hT h.prev_eq
  have hTs : (tick w s c).totalTime = s.totalTime := rfl
  rw [hTs] at hrw
  have hge := h.time_ge
  have hlt := h.time_lt
  have hrc := h.count_nonneg
  have hlen := h.length_eq
  have hkH : k % H < H := Nat.mod_lt _ hH
  have hfit : (s.totalTime + absUL (subUL (c.atCurrent % ulongRange) s.previousTime)) % ulongRange =
      s.totalTime + absUL (subUL (c.atCurrent % ulongRange) s.previousTime) := by
    apply Nat.mod_eq_of_lt
    omega
  by_cases hp : s.totalTime < 6000 * (k + 1)
  · -- the call stays in period `k`
    have hrot : rotates w (tick w s c) = false := by
      rw [hrw]
      simp only [Bool.and_eq_false_imp, decide_eq_true_eq, decide_eq_false_iff_not, not_not]
      omega
    have hper : s.totalTime / 6000 = k := by omega
    rw [rotate_of_not _ _ _ hrot] at f1 f2 f3 f4 f5
    simp only [accumulate, tick] at f1 f2 f3 f4 f5
    rw [hfit] at f5
    rw [hper]
    refine ⟨k, ?_, ?_, ?_, ?_, ?_, ?_, ?_, ?_, ?_, ?_, ?_, ?_⟩
    · rw [f2]; simpa using hlen
    · rw [f3]; exact h.index_eq
    · rw [f4]; exact h.prev_eq
    · rw [f5]; omega
    · rw [f5]; omega
    · exact h.period_lt
    · rw [f6]
    · intro j
      have := h.ghost_nonneg j
      split <;> omega
    · intro j hj
      rw [h.ghost_future j hj, if_neg (by omega)]
      rfl
    · intro j hj1 hj2
      rw [f2, h.index_eq]
      by_cases hjk : j = k
      · subst hjk
        rw [getD_set_self _ _ _ (by omega), h.bucket_eq j hj1 hj2, if_pos rfl]
      · rw [getD_set_other _ _ _ _ (mod_ne_of_lt j k H (by omega) hj2).symm, h.bucket_eq j hj1 hj2,
          if_neg (by omega), add_zero]
    · intro i hi1 hi2
      rw [f2, h.index_eq, Nat.mod_eq_of_lt (by omega), getD_set_other _ _ _ _ (by omega)]
      exact h.bucket_zero i hi1 hi2
    · rw [f1, h.total_eq, window_add _ _ _ _ (by omega)]
  · -- the call opens period `k + 1`
    have hrot : rotates w (tick w s c) = true := by
      rw [hrw]
      simp only [Bool.and_eq_true, decide_eq_true_eq]
      omega
    have hper : s.totalTime / 6000 = k + 1 := by omega
    have hsec : totalTimeSec w (tick w s c) = ((6 * (k + 1) : Nat) : Int) := by
      rw [totalTimeSec_of_lt w _ hT, hTs]
      congr 1
      omega
    have hnext : nextIndex H (tick w s c).cpmIndex = (k + 1) % H := by
      show nextIndex H s.cpmIndex = (k + 1) % H
      rw [h.index_eq, nextIndex_mod H k hH]
    have hk1 : (k + 1) % H < H := Nat.mod_lt _ hH
    have hfut : P (k + 1) = 0 := h.ghost_future (k + 1) (by omega)
    -- the content evicted from the new bucket
    have hev : s._cpmHistory.getD ((k + 1) % H) 0 = if H ≤ k + 1 then P (k + 1 - H) else 0 := by
      by_cases hle : H ≤ k + 1
      · have e : (k + 1) % H = (k + 1 - H) % H := by
          conv_lhs => rw [show k + 1 = (k + 1 - H) + H by omega]
          exact Nat.add_mod_right _ _
        rw [if_pos hle, e]
        exact h.bucket_eq _ (by omega) (by omega)
      · rw [if_neg hle, Nat.mod_eq_of_lt (by omega)]
        exact h.bucket_zero _ (by omega) (by omega)
    have hev0 : 0 ≤ s._cpmHistory.getD ((k + 1) % H) 0 := by
      rw [hev]
      split
      · exact h.ghost_nonneg _
      · exact le_refl 0
    rw [rotate_of _ _ _ hrot, hnext, hsec] at f1 f2 f3 f4 f5
    simp only [accumulate, tick] at f1 f2 f3 f4 f5
    rw [hfit] at f5
    rw [hper]
    refine ⟨k + 1, ?_, ?_, ?_, ?_, ?_, ?_, ?_, ?_, ?_, ?_, ?_, ?_⟩
    · rw [f2]; simpa using hlen
    · rw [f3]
    · rw [f4]
    · rw [f5]; omega
    · rw [f5]; omega
    · omega
    · rw [f6]
    · intro j
      have := h.ghost_nonneg j
      split <;> omega
    · intro j hj
      rw [h.ghost_future j (by omega), if_neg (by omega)]
      rfl
    · intro j hj1 hj2
      rw [f2]
      by_cases hjk : j = k + 1
      · subst hjk
        rw [getD_set_self _ _ _ (by simp; omega), getD_set_self _ _ _ (by omega), hfut, if_pos rfl]
      · have hne := (mod_ne_of_lt j (k + 1) H (by omega) hj2).symm
        rw [getD_set_other _ _ _ _ hne, getD_set_other _ _ _ _ hne,
          h.bucket_eq j (by omega) (by omega), if_neg (by omega), add_zero]
    · intro i hi1 hi2
      have hne : (k + 1) % H ≠ i := by
        rw [Nat.mod_eq_of_lt (by omega)]
        omega
      rw [f2, getD_set_other _ _ _ _ hne, getD_set_other _ _ _ _ hne]
      exact h.bucket_zero i (by omega) hi2
    · rw [f1, window_add _ _ _ _ (by omega), window_shift P H k hH hfut, ← hev, h.total_eq]
      split
      · rfl
      · have : s._cpmHistory.getD ((k + 1) % H) 0 = 0 := by omega
        rw [this, sub_zero]

theorem aging_step (H w limit : Nat) (s : Watch) (e : Event) (P : Nat → Int) (k : Nat)
    (hH : 1 ≤ H) (hw : w ≤ 32) (hrange : limit + 1000 ≤ 2 ^ (w - 1))
    (h : Aging H limit s P k) (hreg : regularAt w limit s e = true) :
    ∃ k', Aging H limit (step H w s e).1 (fun j => P j + drainedIn w j s e) k' := by
  cases e with
  | radiationPulse =>
    simp only [drainedIn, add_zero]
    exact ⟨k, h.length_eq, h.index_eq, h.prev_eq, h.time_ge, h.time_lt, h.period_lt,
      add_nonneg h.count_nonneg (by decide), h.ghost_nonneg, h.ghost_future, h.bucket_eq,
      h.bucket_zero, h.total_eq⟩
  | noisePulse =>
    simp only [drainedIn, add_zero]
    exact ⟨k, h.length_eq, h.index_eq, h.prev_eq, h.time_ge, h.time_lt, h.period_lt,
      h.count_nonneg, h.ghost_nonneg, h.ghost_future, h.bucket_eq, h.bucket_zero, h.total_eq⟩
  | loopCall c =>
    by_cases hd : drains w s c = true
    · simp only [regularAt, hd, Bool.not_true, Bool.false_or, Bool.and_eq_true,
        decide_eq_true_eq] at hreg
      obtain ⟨⟨hn, hs⟩, hl⟩ := hreg
      simp only [drainedIn, hd, hn, decide_True, Bool.and_self, Bool.true_and, decide_eq_true_eq]
      exact aging_drain H w limit s c P k hH hw hrange h hd hn hs hl
    · have hd' : drains w s c = false := by simpa using hd
      simp only [drainedIn, hd', Bool.false_and, Bool.false_eq_true, if_false, add_zero, step,
        loop_idle H w s c hd']
      exact ⟨k, h.length_eq, h.index_eq, h.prev_eq, h.time_ge, h.time_lt, h.period_lt,
        h.count_nonneg, h.ghost_nonneg, h.ghost_future, h.bucket_eq, h.bucket_zero, h.total_eq⟩

theorem aging_run (H w limit : Nat) (evs : List Event) (s : Watch) (P : Nat → Int) (k : Nat)
    (hH : 1 ≤ H) (hw : w ≤ 32) (hrange : limit + 1000 ≤ 2 ^ (w - 1))
    (h : Aging H limit s P k) (hreg : regular H w limit s evs = true) :
    ∃ k', Aging H limit (run H w s evs).1 (fun j => P j + pulsesIn H w j s evs) k' := by
  induction evs generalizing s P k with
  | nil =>
    simp only [pulsesIn, add_zero, run]
    exact ⟨k, h⟩
  | cons e es ih =>
    simp only [regular, Bool.and_eq_true] at hreg
    obtain ⟨k1, h1⟩ := aging_step H w limit s e P k hH hw hrange h hreg.1
    obtain ⟨k2, h2⟩ := ih _ _ k1 h1 hreg.2
    refine ⟨k2, ?_⟩
    simp only [pulsesIn, run]
    have e : (fun j => P j + (drainedIn w j s e + pulsesIn H w j (step H w s e).1 es)) =
        (fun j => P j + drainedIn w j s e + pulsesIn H w j (step H w s e).1 es) := by
      funext j
      ring
    rw [e]
    exact h2

theorem getD_replicate_zero (n i : Nat) : (List.replicate n (0 : Int)).getD i 0 = 0 := by
  rw [List.getD_eq_getElem?_getD, List.getElem?_replicate]
  split <;> rfl

theorem aging_initial (H limit now : Nat) (hlimit : 0 < limit) :
    Aging H limit (initial H now) (fun _ => 0) 0 := by
  refine ⟨?_, ?_, ?_, ?_, ?_, ?_, ?_, ?_, ?_, ?_, ?_, ?_⟩
  · simp [initial, setup]
  · simp [initial, setup, construct]
  · simp [initial, setup, construct]
  · simp [initial, setup, construct]
  · simp [initial, setup, construct]
  · simpa using hlimit
  · simp [initial, setup, construct]
  · intro j; exact le_refl 0
  · intro j _; rfl
  · intro j _ _
    exact getD_replicate_zero H (j % H)
  · intro i _ _
    exact getD_replicate_zero H i
  · simp [initial, setup, construct]

/-- Window aging while `(int) totalTime` stays in range.  From the set-up object, on a
run whose draining calls find no noise, add less than 1000 ms each and start
before `6000 (H + 1)` ms of measured time, if each of the bucket periods
`0 .. H` receives `r` pulses and the measured time has reached `6000 (H + 1)` ms,
then `_cpm = r * H`, provided `6000 (H + 1) + 1000` fits in a positive `int`. -/
theorem window_aging_in_range (kHistoryCount w r now : Nat) (evs : List Event)
    (hH : 1 ≤ kHistoryCount) (hw : w ≤ 32)
    (hrange : 6000 * (kHistoryCount + 1) + 1000 ≤ 2 ^ (w - 1))
    (hreg : regular kHistoryCount w (6000 * (kHistoryCount + 1))
      (initial kHistoryCount now) evs = true)
    (hpulses : ∀ k, k ≤ kHistoryCount →
      pulsesIn kHistoryCount w k (initial kHistoryCount now) evs = r)
    (hdone : 6000 * (kHistoryCount + 1) ≤
      (run kHistoryCount w (initial kHistoryCount now) evs).1.totalTime) :
    (run kHistoryCount w (initial kHistoryCount now) evs).1._cpm = r * kHistoryCount := by
  obtain ⟨k, h⟩ := aging_run kHistoryCount w _ evs _ _ 0 hH hw hrange
    (aging_initial kHistoryCount (6000 * (kHistoryCount + 1)) now (by omega)) hreg
  have hlt := h.time_lt
  have hper := h.period_lt
  have hk : k = kHistoryCount := by omega
  subst hk
  rw [h.total_eq]
  have e : ∀ j ∈ Finset.Icc (k + 1 - k) k,
      (0 : Int) + pulsesIn k w j (initial k now) evs = r := by
    intro j hj
    rw [zero_add]
    exact hpulses j (Finset.mem_Icc.mp hj).2
  have hc : k + 1 - (k + 1 - k) = k := by omega
  rw [Finset.sum_congr rfl e, Finset.sum_const, Nat.card_Icc, hc, nsmul_eq_mul, mul_comm]

theorem window_aging_in_range_witness :
    (run 5 32 (initial 5 0) thirtySixSeconds).1._cpm = (1 : Nat) * (5 : Nat) :=
  window_aging_in_range 5 32 1 0 thirtySixSeconds (by decide) (by decide) (by decide) (by decide)
    (by decide) (by decide)

/-! ## What every drain resets -/

/-- C12. After every draining call of `loop()`, noisy or noise-free, `radiationCount`
and `noiseCount` are 0 and `previousTime` is the instant `currentTime` the call
sampled. -/
theorem drain_always_resets (kHistoryCount w : Nat) (s : Watch) (c : Clock)
    (hdrain : drains w s c = true) :
    (loop kHistoryCount w s c).1.radiationCount = 0 ∧
    (loop kHistoryCount w s c).1.noiseCount = 0 ∧
    (loop kHistoryCount w s c).1.previousTime = c.atCurrent % ulongRange := by
  have hd : (tick w s c).loopElasped > 160 := by simpa [drains] using hdrain
  simp only [loop, if_pos hd, dispatch_state]
  simp [resetCounters]

theorem drain_always_resets_witness :
    (loop 2 16 (_onNoiseHandler (_onRadiationHandler (initial 2 0))) ⟨200, 200, 200⟩).1.radiationCount = 0 ∧
    (loop 2 16 (_onNoiseHandler (_onRadiationHandler (initial 2 0))) ⟨200, 200, 200⟩).1.noiseCount = 0 ∧
    (loop 2 16 (_onNoiseHandler (_onRadiationHandler (initial 2 0))) ⟨200, 200, 200⟩).1.previousTime =
      (⟨200, 200, 200⟩ : Clock).atCurrent % ulongRange :=
  drain_always_resets 2 16 (_onNoiseHandler (_onRadiationHandler (initial 2 0))) ⟨200, 200, 200⟩
    (by decide)

/-! ## The bucket index -/

theorem index_step (H w : Nat) (s : Watch) (e : Event) (hH : 1 ≤ H) (h : s.cpmIndex < H) :
    (step H w s e).1.cpmIndex < H := by
  have hrot : ∀ u : Watch, u.cpmIndex < H → (rotate H w u).cpmIndex < H := by
    intro u hu
    unfold rotate
    split
    · exact nextIndex_lt H _ hH
    · exact hu
  cases e with
  | radiationPulse => exact h
  | noisePulse => exact h
  | loopCall c =>
    simp only [step, loop]
    split
    · rw [dispatch_state]
      split
      · exact hrot _ h
      · exact h
    · exact h

theorem index_run (H w : Nat) (evs : List Event) (s : Watch) (hH : 1 ≤ H) (h : s.cpmIndex < H) :
    (run H w s evs).1.cpmIndex < H := by
  induction evs generalizing s with
  | nil => exact h
  | cons e es ih => exact ih _ (index_step H w s e hH h)

/-- C18. For `kHistoryCount >= 1`, after every sequence of pulses and calls of `loop()`
from the constructed object, before or after `setup()`, `cpmIndex` is below
`kHistoryCount`; after `setup()` the array has `kHistoryCount` buckets, so every
access `_cpmHistory[cpmIndex]` is inside the array. -/
theorem bucket_index_in_bounds (kHistoryCount w now : Nat) (mem : List Int) (evs : List Event)
    (hH : 1 ≤ kHistoryCount) :
    (run kHistoryCount w (construct mem) evs).1.cpmIndex < kHistoryCount ∧
    (run kHistoryCount w (setup kHistoryCount (construct mem) now) evs).1.cpmIndex <
      kHistoryCount ∧
    (run kHistoryCount w (initial kHistoryCount now) evs).1.cpmIndex <
      (run kHistoryCount w (initial kHistoryCount now) evs).1._cpmHistory.length := by
  refine ⟨index_run kHistoryCount w evs _ hH hH, index_run kHistoryCount w evs _ hH hH, ?_⟩
  have h := consistent_run kHistoryCount w evs _ hH (consistent_initial kHistoryCount now hH)
  rw [h.length_eq]
  exact h.index_lt

theorem bucket_index_in_bounds_witness :
    (run 2 16 (construct [7, 7]) thirtySixSeconds).1.cpmIndex < 2 ∧
    (run 2 16 (setup 2 (construct [7, 7]) 0) thirtySixSeconds).1.cpmIndex < 2 ∧
    (run 2 16 (initial 2 0) thirtySixSeconds).1.cpmIndex <
      (run 2 16 (initial 2 0) thirtySixSeconds).1._cpmHistory.length :=
  bucket_index_in_bounds 2 16 0 [7, 7] thirtySixSeconds (by decide)

/-! ## The advance of the accumulator -/

theorem nextIndex_eq_mod (H i : Nat) (hH : 1 ≤ H) (hi : i < H) : nextIndex H i = (i + 1) % H := by
  have h := nextIndex_mod H i hH
  rwa [Nat.mod_eq_of_lt hi] at h

/-- C15. On a noise-free draining call with non-negative buckets, let `i'` be the index
after the rotation decision.  The new bucket `i'` is the drained count when the
call rotates and its old content plus the drained count otherwise; the new
`_cpm` is the old one, less the old content of bucket `i'` when the call rotates,
plus the drained count; every other bucket is unchanged. -/
theorem advance_postcondition (kHistoryCount w : Nat) (s : Watch) (c : Clock)
    (hH : 1 ≤ kHistoryCount) (hlen : s._cpmHistory.length = kHistoryCount)
    (hidx : s.cpmIndex < kHistoryCount) (hbuckets : ∀ x ∈ s._cpmHistory, 0 ≤ x)
    (hdrain : drains w s c = true) (hnoise : s.noiseCount = 0) :
    (loop kHistoryCount w s c).1.cpmIndex = indexAfter kHistoryCount w s ∧
    (loop kHistoryCount w s c).1._cpmHistory.getD (indexAfter kHistoryCount w s) 0 =
      (if rotates w s then s.radiationCount
        else s._cpmHistory.getD (indexAfter kHistoryCount w s) 0 + s.radiationCount) ∧
    (loop kHistoryCount w s c).1._cpm =
      s._cpm - (if rotates w s then s._cpmHistory.getD (indexAfter kHistoryCount w s) 0 else 0) +
        s.radiationCount ∧
    (∀ j, j ≠ indexAfter kHistoryCount w s →
      (loop kHistoryCount w s c).1._cpmHistory.getD j 0 = s._cpmHistory.getD j 0) := by
  obtain ⟨f1, f2, f3, -, -, -⟩ := drained_fields kHistoryCount w s c hdrain hnoise
  have hrw : rotates w (tick w s c) = rotates w s := rfl
  have hnext := nextIndex_lt kHistoryCount s.cpmIndex hH
  have hne := nextIndex_eq_mod kHistoryCount s.cpmIndex hH hidx
  cases hr : rotates w s with
  | false =>
    rw [rotate_of_not _ _ _ (hrw.trans hr)] at f1 f2 f3
    simp only [accumulate, tick] at f1 f2 f3
    simp only [indexAfter, hr, Bool.false_eq_true, if_false]
    refine ⟨f3, ?_, ?_, ?_⟩
    · rw [f2, getD_set_self _ _ _ (by omega)]
    · rw [f1, sub_zero]
    · intro j hj
      rw [f2, getD_set_other _ _ _ _ (Ne.symm hj)]
  | true =>
    rw [rotate_of _ _ _ (hrw.trans hr)] at f1 f2 f3
    simp only [accumulate, tick] at f1 f2 f3
    simp only [indexAfter, hr, if_true]
    rw [← hne]
    have hg := getD_nonneg s._cpmHistory (nextIndex kHistoryCount s.cpmIndex) hbuckets
    refine ⟨f3, ?_, ?_, ?_⟩
    · rw [f2, getD_set_self _ _ _ (by simp; omega), getD_set_self _ _ _ (by omega), zero_add]
    · rw [f1]
      split
      · rfl
      · have : s._cpmHistory.getD (nextIndex kHistoryCount s.cpmIndex) 0 = 0 := by omega
        rw [this, sub_zero]
    · intro j hj
      rw [f2, getD_set_other _ _ _ _ (Ne.symm hj), getD_set_other _ _ _ _ (Ne.symm hj)]

theorem advance_postcondition_witness :
    (loop 2 16 (radiationPulses 5 twelveSeconds) ⟨12750, 12750, 12750⟩).1.cpmIndex =
      indexAfter 2 16 (radiationPulses 5 twelveSeconds) ∧
    (loop 2 16 (radiationPulses 5 twelveSeconds) ⟨12750, 12750, 12750⟩).1._cpm =
      (radiationPulses 5 twelveSeconds)._cpm -
        (if rotates 16 (radiationPulses 5 twelveSeconds)
          then (radiationPulses 5 twelveSeconds)._cpmHistory.getD
            (indexAfter 2 16 (radiationPulses 5 twelveSeconds)) 0 else 0) +
        (radiationPulses 5 twelveSeconds).radiationCount :=
  ⟨(advance_postcondition 2 16 (radiationPulses 5 twelveSeconds) ⟨12750, 12750, 12750⟩
      (by decide) (by decide) (by decide) (by decide) (by decide) (by decide)).1,
    (advance_postcondition 2 16 (radiationPulses 5 twelveSeconds) ⟨12750, 12750, 12750⟩
      (by decide) (by decide) (by decide) (by decide) (by decide) (by decide)).2.2.1⟩

/-! ## Whole seconds -/

/-- C19. With a 16-bit `int`, one call of `loop()` 33000 ms after `setup()` leaves
`totalTime = 33000`; line 83 then computes `(int) totalTime / 1000 = -32`, while
`floor(totalTime / 1000)` is 33. -/
theorem whole_seconds_fail_16bit :
    thirtyThreeSeconds.totalTime = 33000 ∧
    thirtyThreeSeconds.totalTime < ulongRange ∧
    castInt 16 thirtyThreeSeconds.totalTime = -32536 ∧
    totalTimeSec 16 thirtyThreeSeconds = -32 ∧
    ((thirtyThreeSeconds.totalTime / 1000 : Nat) : Int) = 33 ∧
    totalTimeSec 16 thirtyThreeSeconds ≠ ((thirtyThreeSeconds.totalTime / 1000 : Nat) : Int) := by
  decide

/-! ## The event flags -/

theorem drain_flags (H w : Nat) (s : Watch) (c : Clock) (hdrain : drains w s c = true) :
    (loop H w s c).1.radiationFlag = (s.radiationFlag && !s._radiationCallback) ∧
    (loop H w s c).1.noiseFlag = (s.noiseFlag && !s._noiseCallback) ∧
    (loop H w s c).1._radiationCallback = s._radiationCallback ∧
    (loop H w s c).1._noiseCallback = s._noiseCallback := by
  have hd : (tick w s c).loopElasped > 160 := by simpa [drains] using hdrain
  have hrot : ∀ u : Watch, (rotate H w u).radiationFlag = u.radiationFlag ∧
      (rotate H w u).noiseFlag = u.noiseFlag ∧
      (rotate H w u)._radiationCallback = u._radiationCallback ∧
      (rotate H w u)._noiseCallback = u._noiseCallback := by
    intro u
    unfold rotate
    split <;> exact ⟨rfl, rfl, rfl, rfl⟩
  simp only [loop, if_pos hd, dispatch_state]
  split
  · simp only [resetCounters, accumulate, (hrot _).1, (hrot _).2.1, (hrot _).2.2.1,
      (hrot _).2.2.2]
    exact ⟨rfl, rfl, rfl, rfl⟩
  · exact ⟨rfl, rfl, rfl, rfl⟩

theorem loop_flag_down (H w : Nat) (s : Watch) (c : Clock) :
    (loop H w s c).1._radiationCallback = s._radiationCallback ∧
    (loop H w s c).1._noiseCallback = s._noiseCallback ∧
    (s.radiationFlag = false →
      (loop H w s c).1.radiationFlag = false ∧ Callback.radiation ∉ (loop H w s c).2) ∧
    (s.noiseFlag = false →
      (loop H w s c).1.noiseFlag = false ∧ Callback.noise ∉ (loop H w s c).2) := by
  have hrot : ∀ u : Watch, (rotate H w u).radiationFlag = u.radiationFlag ∧
      (rotate H w u).noiseFlag = u.noiseFlag ∧
      (rotate H w u)._radiationCallback = u._radiationCallback ∧
      (rotate H w u)._noiseCallback = u._noiseCallback := by
    intro u
    unfold rotate
    split <;> exact ⟨rfl, rfl, rfl, rfl⟩
  have hdisp : ∀ u : Watch,
      (dispatch u).1._radiationCallback = u._radiationCallback ∧
      (dispatch u).1._noiseCallback = u._noiseCallback ∧
      (u.radiationFlag = false →
        (dispatch u).1.radiationFlag = false ∧ Callback.radiation ∉ (dispatch u).2) ∧
      (u.noiseFlag = false →
        (dispatch u).1.noiseFlag = false ∧ Callback.noise ∉ (dispatch u).2) := by
    intro u
    rcases u with ⟨rc, nc, rf, nf, lt, le, pt, cp, ci, cip, tt, hist, rcb, ncb⟩
    cases rf <;> cases nf <;> cases rcb <;> cases ncb <;>
      simp [dispatch, dispatchRadiation, dispatchNoise]
  unfold loop
  simp only
  split
  · split
    · generalize hv : resetCounters (accumulate (rotate H w (tick w s c))
        (c.atCurrent % ulongRange)) (c.atCurrent % ulongRange) = v
      have e1 : v.radiationFlag = s.radiationFlag := by rw [← hv]; exact (hrot _).1
      have e2 : v.noiseFlag = s.noiseFlag := by rw [← hv]; exact (hrot _).2.1
      have e3 : v._radiationCallback = s._radiationCallback := by rw [← hv]; exact (hrot _).2.2.1
      have e4 : v._noiseCallback = s._noiseCallback := by rw [← hv]; exact (hrot _).2.2.2
      have h := hdisp v
      rw [e1, e2, e3, e4] at h
      exact h
    · exact hdisp (resetCounters (tick w s c) (c.atCurrent % ulongRange))
  · exact ⟨rfl, rfl, fun h => ⟨h, by simp⟩, fun h => ⟨h, by simp⟩⟩

theorem run_flag_down (H w : Nat) (evs : List Event) (s : Watch) :
    (s.radiationFlag = false → Event.radiationPulse ∉ evs →
      Callback.radiation ∉ (run H w s evs).2) ∧
    (s.noiseFlag = false → Event.noisePulse ∉ evs →
      Callback.noise ∉ (run H w s evs).2) := by
  induction evs generalizing s with
  | nil => simp [run]
  | cons e es ih =>
    cases e with
    | radiationPulse =>
      have h := ih (_onRadiationHandler s)
      refine ⟨fun _ hmem => absurd (List.mem_cons_self _ _) hmem, fun hf hmem => ?_⟩
      simp only [run, step, List.nil_append]
      exact h.2 hf (fun hm => hmem (List.mem_cons_of_mem _ hm))
    | noisePulse =>
      have h := ih (_onNoiseHandler s)
      refine ⟨fun hf hmem => ?_, fun _ hmem => absurd (List.mem_cons_self _ _) hmem⟩
      simp only [run, step, List.nil_append]
      exact h.1 hf (fun hm => hmem (List.mem_cons_of_mem _ hm))
    | loopCall c =>
      obtain ⟨-, -, h3, h4⟩ := loop_flag_down H w s c
      have h := ih (loop H w s c).1
      simp only [run, step, List.mem_append, not_or]
      exact ⟨fun hf hmem => ⟨(h3 hf).2, h.1 (h3 hf).1 (fun hm => hmem (List.mem_cons_of_mem _ hm))⟩,
        fun hf hmem => ⟨(h4 hf).2, h.2 (h4 hf).1 (fun hm => hmem (List.mem_cons_of_mem _ hm))⟩⟩

/-- C11 as stated fails when no callback is registered: after one radiation pulse and
a draining call of `loop()` the flag is still set, and once a callback is
registered the next draining call invokes it without any new pulse. -/
theorem flags_cleared_counterexample :
    drains 16 (_onRadiationHandler (initial 2 0)) ⟨200, 200, 200⟩ = true ∧
    drainedUnregistered.radiationFlag = true ∧
    drainedUnregistered.radiationCount = 0 ∧
    drains 16 (registerRadiationCallback drainedUnregistered true) ⟨400, 400, 400⟩ = true ∧
    (loop 2 16 (registerRadiationCallback drainedUnregistered true) ⟨400, 400, 400⟩).2 =
      [Callback.radiation] := by
  decide

/-- C11 (amended). A draining call of `loop()` leaves `radiationFlag` false when a
radiation callback is registered and unchanged when none is, and likewise
`noiseFlag` with the noise callback.  With the callback of a kind registered,
whatever follows the drain (calls of `loop()`, draining or not, and pulses of
the other kind) invokes no callback of that kind until a new pulse of that kind
arrives. -/
theorem flags_cleared_at_drain (kHistoryCount w : Nat) (s : Watch) (c : Clock)
    (evs : List Event) (hdrain : drains w s c = true) :
    (loop kHistoryCount w s c).1.radiationFlag = (s.radiationFlag && !s._radiationCallback) ∧
    (loop kHistoryCount w s c).1.noiseFlag = (s.noiseFlag && !s._noiseCallback) ∧
    (s._radiationCallback = true →
      (loop kHistoryCount w s c).1.radiationFlag = false ∧
      (Event.radiationPulse ∉ evs →
        Callback.radiation ∉ (run kHistoryCount w (loop kHistoryCount w s c).1 evs).2)) ∧
    (s._noiseCallback = true →
      (loop kHistoryCount w s c).1.noiseFlag = false ∧
      (Event.noisePulse ∉ evs →
        Callback.noise ∉ (run kHistoryCount w (loop kHistoryCount w s c).1 evs).2)) := by
  obtain ⟨h1, h2, -, -⟩ := drain_flags kHistoryCount w s c hdrain
  have h := run_flag_down kHistoryCount w evs (loop kHistoryCount w s c).1
  refine ⟨h1, h2, ?_, ?_⟩
  · intro hcb
    have hf : (loop kHistoryCount w s c).1.radiationFlag = false := by
      rw [h1, hcb]; simp
    exact ⟨hf, h.1 hf⟩
  · intro hcb
    have hf : (loop kHistoryCount w s c).1.noiseFlag = false := by
      rw [h2, hcb]; simp
    exact ⟨hf, h.2 hf⟩

theorem flags_cleared_at_drain_witness :
    (loop 2 16 (radiationPulses 5 twelveSeconds) ⟨12750, 12750, 12750⟩).1.radiationFlag = false ∧
    Callback.radiation ∉
      (run 2 16 (loop 2 16 (radiationPulses 5 twelveSeconds) ⟨12750, 12750, 12750⟩).1
        [Event.noisePulse, Event.loopCall ⟨13500, 13500, 13500⟩, Event.noisePulse,
          Event.loopCall ⟨14250, 14250, 14250⟩, Event.loopCall ⟨15000, 15000, 15000⟩]).2 :=
  ⟨((flags_cleared_at_drain 2 16 (radiationPulses 5 twelveSeconds) ⟨12750, 12750, 12750⟩
      [Event.noisePulse, Event.loopCall ⟨13500, 13500, 13500⟩, Event.noisePulse,
        Event.loopCall ⟨14250, 14250, 14250⟩, Event.loopCall ⟨15000, 15000, 15000⟩]
      (by decide)).2.2.1 (by decide)).1,
    ((flags_cleared_at_drain 2 16 (radiationPulses 5 twelveSeconds) ⟨12750, 12750, 12750⟩
      [Event.noisePulse, Event.loopCall ⟨13500, 13500, 13500⟩, Event.noisePulse,
        Event.loopCall ⟨14250, 14250, 14250⟩, Event.loopCall ⟨15000, 15000, 15000⟩]
      (by decide)).2.2.1 (by decide)).2 (by decide)⟩

/-! ## Monotony of the measured time -/

theorem noisy_totalTime (H w : Nat) (s : Watch) (c : Clock) (hdrain : drains w s c = true)
    (hnoise : s.noiseCount ≠ 0) : (loop H w s c).1.totalTime = s.totalTime := by
  have hd : (tick w s c).loopElasped > 160 := by simpa [drains] using hdrain
  have hn : ¬ (tick w s c).noiseCount = 0 := hnoise
  simp only [loop, if_pos hd, if_neg hn, dispatch_state]
  rfl

theorem fits_step (H w : Nat) (s : Watch) (e : Event) (h : fitsAt w s e = true) :
    s.totalTime ≤ (step H w s e).1.totalTime := by
  have hrot : ∀ u : Watch, (rotate H w u).totalTime = u.totalTime ∧
      (rotate H w u).previousTime = u.previousTime := by
    intro u
    unfold rotate
    split <;> exact ⟨rfl, rfl⟩
  cases e with
  | radiationPulse => exact le_refl _
  | noisePulse => exact le_refl _
  | loopCall c =>
    by_cases hd : drains w s c = true
    · by_cases hn : s.noiseCount = 0
      · simp only [fitsAt, hd, hn, decide_True, Bool.not_true, Bool.false_or,
          decide_eq_true_eq] at h
        obtain ⟨-, -, -, -, f5, -⟩ := drained_fields H w s c hd hn
        simp only [step]
        rw [f5]
        simp only [accumulate, (hrot _).1, (hrot _).2, tick]
        rw [Nat.mod_eq_of_lt h]
        exact Nat.le_add_right _ _
      · simp only [step]
        rw [noisy_totalTime H w s c hd hn]
    · have hd' : drains w s c = false := by simpa using hd
      simp only [step, loop_idle H w s c hd']
      exact le_refl _

/-- C13 as stated fails when the 32-bit counter wraps: with `totalTime = 4294967200`,
a noise-free drain that adds 196 ms leaves `totalTime = 100`. -/
theorem elapsed_time_monotone_counterexample :
    fiftyDays.totalTime = 4294967200 ∧
    fiftyDays.totalTime < ulongRange ∧
    drains 16 fiftyDays ⟨100, 100, 100⟩ = true ∧
    fiftyDays.noiseCount = 0 ∧
    (loop 2 16 fiftyDays ⟨100, 100, 100⟩).1.totalTime = 100 ∧
    ¬ fiftyDays.totalTime ≤ (loop 2 16 fiftyDays ⟨100, 100, 100⟩).1.totalTime ∧
    ¬ duration fiftyDays ≤ duration (loop 2 16 fiftyDays ⟨100, 100, 100⟩).1 := by
  decide

/-- C13 (amended). Along every run in which no addition to `totalTime` exceeds the
range of `unsigned long` (the sum stays below 2^32), `totalTime` after the run
is at least `totalTime` before it, and so is `duration()`; this holds in
particular for every single call of `loop()`. -/
theorem elapsed_time_monotone (kHistoryCount w : Nat) (evs : List Event) (s : Watch)
    (hfits : fits kHistoryCount w s evs = true) :
    s.totalTime ≤ (run kHistoryCount w s evs).1.totalTime ∧
    duration s ≤ duration (run kHistoryCount w s evs).1 := by
  have h : s.totalTime ≤ (run kHistoryCount w s evs).1.totalTime := by
    induction evs generalizing s with
    | nil => exact le_refl _
    | cons e es ih =>
      simp only [fits, Bool.and_eq_true] at hfits
      exact le_trans (fits_step kHistoryCount w s e hfits.1) (ih _ hfits.2)
  exact ⟨h, h⟩

theorem elapsed_time_monotone_witness :
    (initial 5 0).totalTime ≤ (run 5 16 (initial 5 0) thirtySixSeconds).1.totalTime ∧
    duration (initial 5 0) ≤ duration (run 5 16 (initial 5 0) thirtySixSeconds).1 :=
  elapsed_time_monotone 5 16 thirtySixSeconds (initial 5 0) (by decide)

/-! ## Cold start -/

theorem cold_rotates (w : Nat) (s : Watch) (hw : 6000 ≤ 2 ^ (w - 1)) (hprev : s.cpmIndexPrev = 0)
    (hT : s.totalTime < 6000) : rotates w s = false := by
  have hp : s.cpmIndexPrev = ((6 * 0 : Nat) : Int) := by rw [hprev]; rfl
  rw [rotates_of_lt w s 0 (by omega) hp]
  simp only [Bool.and_eq_false_imp, decide_eq_true_eq, decide_eq_false_iff_not, not_not]
  omega

theorem first_bucket_step (H w : Nat) (s : Watch) (e : Event) (P : Int) (hH : 1 ≤ H)
    (hw : 6000 ≤ 2 ^ (w - 1)) (h : FirstBucket H s P) (hcold : coldAt w s e = true) :
    FirstBucket H (step H w s e).1 (P + drainedBy w s e) := by
  cases e with
  | radiationPulse =>
    simp only [drainedBy, add_zero]
    exact ⟨h.index_eq, h.prev_eq, h.length_eq, h.bucket_eq, h.others_eq, h.total_eq⟩
  | noisePulse =>
    simp only [drainedBy, add_zero]
    exact ⟨h.index_eq, h.prev_eq, h.length_eq, h.bucket_eq, h.others_eq, h.total_eq⟩
  | loopCall c =>
    by_cases hd : drains w s c = true
    · by_cases hn : s.noiseCount = 0
      · simp only [coldAt, hd, hn, decide_True, Bool.not_true, Bool.false_or,
          decide_eq_true_eq] at hcold
        simp only [drainedBy, hd, hn, decide_True, Bool.and_self, if_true, step]
        obtain ⟨f1, f2, f3, f4, -, -⟩ := drained_fields H w s c hd hn
        have hrot : rotates w (tick w s c) = false :=
          cold_rotates w (tick w s c) hw h.prev_eq hcold
        rw [rotate_of_not _ _ _ hrot] at f1 f2 f3 f4
        simp only [accumulate, tick] at f1 f2 f3 f4
        have hlen := h.length_eq
        refine ⟨?_, ?_, ?_, ?_, ?_, ?_⟩
        · rw [f3]; exact h.index_eq
        · rw [f4]; exact h.prev_eq
        · rw [f2]; simpa using hlen
        · rw [f2, h.index_eq, getD_set_self _ _ _ (by omega), h.bucket_eq]
        · intro i hi
          rw [f2, h.index_eq, getD_set_other _ _ _ _ (Ne.symm hi)]
          exact h.others_eq i hi
        · rw [f1, h.total_eq]
      · have hd' : (tick w s c).loopElasped > 160 := by simpa [drains] using hd
        have hn' : ¬ (tick w s c).noiseCount = 0 := hn
        simp only [drainedBy, hd, hn, decide_False, Bool.and_false, Bool.false_eq_true, if_false,
          add_zero, step, loop, if_pos hd', if_neg hn', dispatch_state]
        exact ⟨h.index_eq, h.prev_eq, h.length_eq, h.bucket_eq, h.others_eq, h.total_eq⟩
    · have hd' : drains w s c = false := by simpa using hd
      simp only [drainedBy, hd', Bool.false_and, Bool.false_eq_true, if_false, add_zero, step,
        loop_idle H w s c hd']
      exact ⟨h.index_eq, h.prev_eq, h.length_eq, h.bucket_eq, h.others_eq, h.total_eq⟩

theorem first_bucket_run (H w : Nat) (evs : List Event) (s : Watch) (P : Int) (hH : 1 ≤ H)
    (hw : 6000 ≤ 2 ^ (w - 1)) (h : FirstBucket H s P) (hcold : cold H w s evs = true) :
    FirstBucket H (run H w s evs).1 (P + drainedTotal H w s evs) := by
  induction evs generalizing s P with
  | nil =>
    simp only [drainedTotal, add_zero, run]
    exact h
  | cons e es ih =>
    simp only [cold, Bool.and_eq_true] at hcold
    have h2 := ih _ _ (first_bucket_step H w s e P hH hw h hcold.1) hcold.2
    simp only [drainedTotal, run]
    rw [← add_assoc]
    exact h2

theorem first_bucket_initial (H now : Nat) : FirstBucket H (initial H now) 0 :=
  ⟨rfl, rfl, by simp [initial, setup], getD_replicate_zero H 0,
    fun i _ => getD_replicate_zero H i, rfl⟩

/-- C16. From the constructed and set-up object, as long as every noise-free draining
call begins while `totalTime < 6000` ms, no call rotates: `cpmIndex` and
`cpmIndexPrev` stay 0, bucket 0 (and `_cpm`) holds all the drained counts, the
other buckets stay empty, and a next noise-free draining call that begins with
`totalTime < 6000` does not rotate either. -/
theorem cold_start (kHistoryCount w now : Nat) (evs : List Event) (hH : 1 ≤ kHistoryCount)
    (hw : 6000 ≤ 2 ^ (w - 1))
    (hcold : cold kHistoryCount w (initial kHistoryCount now) evs = true) :
    (run kHistoryCount w (initial kHistoryCount now) evs).1.cpmIndex = 0 ∧
    (run kHistoryCount w (initial kHistoryCount now) evs).1.cpmIndexPrev = 0 ∧
    (run kHistoryCount w (initial kHistoryCount now) evs).1._cpmHistory.getD 0 0 =
      drainedTotal kHistoryCount w (initial kHistoryCount now) evs ∧
    (∀ i, i ≠ 0 →
      (run kHistoryCount w (initial kHistoryCount now) evs).1._cpmHistory.getD i 0 = 0) ∧
    (run kHistoryCount w (initial kHistoryCount now) evs).1._cpm =
      drainedTotal kHistoryCount w (initial kHistoryCount now) evs ∧
    ((run kHistoryCount w (initial kHistoryCount now) evs).1.totalTime < 6000 →
      rotates w (run kHistoryCount w (initial kHistoryCount now) evs).1 = false) := by
  have h := first_bucket_run kHistoryCount w evs _ 0 hH hw
    (first_bucket_initial kHistoryCount now) hcold
  rw [zero_add] at h
  exact ⟨h.index_eq, h.prev_eq, h.bucket_eq, h.others_eq, h.total_eq,
    fun hT => cold_rotates w _ hw h.prev_eq hT⟩

theorem cold_start_witness :
    (run 3 16 (initial 3 0) fiveSeconds).1.cpmIndex = 0 ∧
    (run 3 16 (initial 3 0) fiveSeconds).1.cpmIndexPrev = 0 ∧
    (run 3 16 (initial 3 0) fiveSeconds).1._cpmHistory.getD 0 0 =
      drainedTotal 3 16 (initial 3 0) fiveSeconds ∧
    (∀ i, i ≠ 0 → (run 3 16 (initial 3 0) fiveSeconds).1._cpmHistory.getD i 0 = 0) ∧
    (run 3 16 (initial 3 0) fiveSeconds).1._cpm = drainedTotal 3 16 (initial 3 0) fiveSeconds ∧
    ((run 3 16 (initial 3 0) fiveSeconds).1.totalTime < 6000 →
      rotates 16 (run 3 16 (initial 3 0) fiveSeconds).1 = false) :=
  cold_start 3 16 0 fiveSeconds (by decide) (by decide) (by decide)

/-! ## Rotation and the six-second boundaries -/

theorem noisy_fields (H w : Nat) (s : Watch) (c : Clock) (hdrain : drains w s c = true)
    (hnoise : s.noiseCount ≠ 0) :
    (loop H w s c).1.totalTime = s.totalTime ∧
    (loop H w s c).1.cpmIndexPrev = s.cpmIndexPrev ∧
    (loop H w s c).1.cpmIndex = s.cpmIndex := by
  have hd : (tick w s c).loopElasped > 160 := by simpa [drains] using hdrain
  have hn : ¬ (tick w s c).noiseCount = 0 := hnoise
  simp only [loop, if_pos hd, if_neg hn, dispatch_state]
  exact ⟨rfl, rfl, rfl⟩

theorem paced_step (H w limit : Nat) (s : Watch) (e : Event) (k : Nat)
    (hw : w ≤ 32) (hrange : limit + 1000 ≤ 2 ^ (w - 1))
    (hprev : s.cpmIndexPrev = ((6 * k : Nat) : Int)) (hge : 6000 * k ≤ s.totalTime)
    (hlt : s.totalTime < 6000 * (k + 1) + 1000) (hp : pacedAt w limit s e = true) :
    (step H w s e).1.cpmIndexPrev = ((6 * rotatedAt w k s e : Nat) : Int) ∧
    6000 * rotatedAt w k s e ≤ (step H w s e).1.totalTime ∧
    (step H w s e).1.totalTime < 6000 * (rotatedAt w k s e + 1) + 1000 := by
  cases e with
  | radiationPulse => exact ⟨hprev, hge, hlt⟩
  | noisePulse => exact ⟨hprev, hge, hlt⟩
  | loopCall c =>
    by_cases hd : drains w s c = true
    · by_cases hn : s.noiseCount = 0
      · simp only [pacedAt, hd, hn, decide_True, Bool.not_true, Bool.false_or, Bool.and_eq_true,
          decide_eq_true_eq] at hp
        obtain ⟨hs, hl⟩ := hp
        obtain ⟨-, -, -, f4, f5, -⟩ := drained_fields H w s c hd hn
        have hpow : 2 ^ (w - 1) ≤ 2 ^ 31 := Nat.pow_le_pow_right (by decide) (by omega)
        have hul : ulongRange = 4294967296 := by decide
        have hp31 : (2 : Nat) ^ 31 = 2147483648 := by decide
        have hT : (tick w s c).totalTime < 2 ^ (w - 1) := by
          show s.totalTime < 2 ^ (w - 1)
          omega
        have hrw := rotates_of_lt w (tick w s c) k hT hprev
        have hTs : (tick w s c).totalTime = s.totalTime := rfl
        have hrs : rotates w (tick w s c) = rotates w s := rfl
        rw [hTs, hrs] at hrw
        have hfit : (s.totalTime + absUL (subUL (c.atCurrent % ulongRange) s.previousTime)) %
            ulongRange = s.totalTime + absUL (subUL (c.atCurrent % ulongRange) s.previousTime) := by
          apply Nat.mod_eq_of_lt
          omega
        simp only [rotatedAt, hd, hn, decide_True, Bool.and_self, Bool.true_and, step]
        by_cases hper : s.totalTime < 6000 * (k + 1)
        · have hrot : rotates w s = false := by
            rw [hrw]
            simp only [Bool.and_eq_false_imp, decide_eq_true_eq, decide_eq_false_iff_not, not_not]
            omega
          rw [rotate_of_not _ _ _ (hrs.trans hrot)] at f4 f5
          simp only [accumulate, tick] at f4 f5
          rw [hfit] at f5
          rw [hrot, f4, f5]
          simp only [Bool.false_eq_true, if_false]
          exact ⟨hprev, by omega, by omega⟩
        · have hrot : rotates w s = true := by
            rw [hrw]
            simp only [Bool.and_eq_true, decide_eq_true_eq]
            omega
          have hsec : totalTimeSec w (tick w s c) = ((6 * (s.totalTime / 6000) : Nat) : Int) := by
            rw [totalTimeSec_of_lt w _ hT, hTs]
            congr 1
            omega
          rw [rotate_of _ _ _ (hrs.trans hrot), hsec] at f4 f5
          simp only [accumulate, tick] at f4 f5
          rw [hfit] at f5
          rw [hrot, f4, f5]
          simp only [if_true]
          exact ⟨trivial, by omega, by omega⟩
      · obtain ⟨g1, g2, -⟩ := noisy_fields H w s c hd hn
        simp only [rotatedAt, hd, hn, decide_False, Bool.and_false, Bool.false_and,
          Bool.false_eq_true, if_false, step]
        rw [g1, g2]
        exact ⟨hprev, hge, hlt⟩
    · have hd' : drains w s c = false := by simpa using hd
      simp only [rotatedAt, hd', Bool.false_and, Bool.false_eq_true, if_false, step,
        loop_idle H w s c hd']
      exact ⟨hprev, hge, hlt⟩

theorem paced_run (H w limit : Nat) (evs : List Event) (s : Watch) (k : Nat)
    (hw : w ≤ 32) (hrange : limit + 1000 ≤ 2 ^ (w - 1))
    (hprev : s.cpmIndexPrev = ((6 * k : Nat) : Int)) (hge : 6000 * k ≤ s.totalTime)
    (hlt : s.totalTime < 6000 * (k + 1) + 1000) (hp : paced H w limit s evs = true) :
    (run H w s evs).1.cpmIndexPrev = ((6 * lastRotation H w k s evs : Nat) : Int) ∧
    6000 * lastRotation H w k s evs ≤ (run H w s evs).1.totalTime ∧
    (run H w s evs).1.totalTime < 6000 * (lastRotation H w k s evs + 1) + 1000 := by
  induction evs generalizing s k with
  | nil => exact ⟨hprev, hge, hlt⟩
  | cons e es ih =>
    simp only [paced, Bool.and_eq_true] at hp
    obtain ⟨h1, h2, h3⟩ := paced_step H w limit s e k hw hrange hprev hge hlt hp.1
    exact ih _ _ h1 h2 h3 hp.2

/-- C14 as stated fails for an increment of more than 1 s, also without any overflow
(32-bit `int`): `totalTime` goes from 5900 to 7000, no rotation has taken place
and `floor(7000 / 6000) = 1 > 0`, yet the next noise-free draining call does not
rotate, since `7000 / 1000 = 7` is no multiple of 6. -/
theorem rotation_on_boundary_counterexample :
    (run 2 32 (initial 2 0) sevenSeconds).1.totalTime = 7000 ∧
    lastRotation 2 32 0 (initial 2 0) sevenSeconds = 0 ∧
    lastRotation 2 32 0 (initial 2 0) sevenSeconds <
      (run 2 32 (initial 2 0) sevenSeconds).1.totalTime / 6000 ∧
    drains 32 (run 2 32 (initial 2 0) sevenSeconds).1 ⟨7200, 7200, 7200⟩ = true ∧
    (run 2 32 (initial 2 0) sevenSeconds).1.noiseCount = 0 ∧
    rotates 32 (run 2 32 (initial 2 0) sevenSeconds).1 = false ∧
    (run 2 32 (initial 2 0) sevenSeconds).1.cpmIndex = 0 ∧
    (loop 2 32 (run 2 32 (initial 2 0) sevenSeconds).1 ⟨7200, 7200, 7200⟩).1.cpmIndex = 0 := by
  decide

/-- C14 (amended). From the set-up object, along a run whose noise-free draining calls
each add less than 1000 ms to `totalTime`, and while `(int) totalTime` is in
range (`totalTime < limit` with `limit + 1000 <= 2^(w-1)`), a noise-free draining
call rotates, and moves `cpmIndex` to the next bucket, if and only if
`floor(totalTime / 6000)` is greater than its value at the latest rotation
(0 at start). -/
theorem rotation_on_boundary (kHistoryCount w limit now : Nat) (evs : List Event) (c : Clock)
    (hw : w ≤ 32) (hrange : limit + 1000 ≤ 2 ^ (w - 1))
    (hpaced : paced kHistoryCount w limit (initial kHistoryCount now) evs = true)
    (hdrain : drains w (run kHistoryCount w (initial kHistoryCount now) evs).1 c = true)
    (hnoise : (run kHistoryCount w (initial kHistoryCount now) evs).1.noiseCount = 0)
    (hlim : (run kHistoryCount w (initial kHistoryCount now) evs).1.totalTime < limit) :
    (rotates w (run kHistoryCount w (initial kHistoryCount now) evs).1 = true ↔
      lastRotation kHistoryCount w 0 (initial kHistoryCount now) evs <
        (run kHistoryCount w (initial kHistoryCount now) evs).1.totalTime / 6000) ∧
    (loop kHistoryCount w (run kHistoryCount w (initial kHistoryCount now) evs).1 c).1.cpmIndex =
      (if lastRotation kHistoryCount w 0 (initial kHistoryCount now) evs <
          (run kHistoryCount w (initial kHistoryCount now) evs).1.totalTime / 6000
        then nextIndex kHistoryCount
          (run kHistoryCount w (initial kHistoryCount now) evs).1.cpmIndex
        else (run kHistoryCount w (initial kHistoryCount now) evs).1.cpmIndex) := by
  obtain ⟨h1, h2, h3⟩ := paced_run kHistoryCount w limit evs (initial kHistoryCount now) 0 hw
    hrange rfl (Nat.zero_le _) (by show 0 < 6000 * (0 + 1) + 1000; omega) hpaced
  generalize lastRotation kHistoryCount w 0 (initial kHistoryCount now) evs = k at h1 h2 h3 ⊢
  generalize (run kHistoryCount w (initial kHistoryCount now) evs).1 = s at h1 h2 h3 hdrain hnoise hlim ⊢
  have hiff : rotates w s = true ↔ k < s.totalTime / 6000 := by
    rw [rotates_of_lt w s k (by omega) h1]
    simp only [Bool.and_eq_true, decide_eq_true_eq]
    omega
  refine ⟨hiff, ?_⟩
  obtain ⟨-, -, f3, -, -, -⟩ := drained_fields kHistoryCount w s c hdrain hnoise
  have hrs : rotates w (tick w s c) = rotates w s := rfl
  by_cases hk : k < s.totalTime / 6000
  · have hr := hiff.mpr hk
    rw [rotate_of _ _ _ (hrs.trans hr)] at f3
    rw [f3, if_pos hk]
    rfl
  · have hr : rotates w s = false := by
      cases h : rotates w s with
      | false => rfl
      | true => exact absurd (hiff.mp h) hk
    rw [rotate_of_not _ _ _ (hrs.trans hr)] at f3
    rw [f3, if_neg hk]
    rfl

theorem rotation_on_boundary_witness :
    (rotates 16 (run 2 16 (initial 2 0) steadyTwelve).1 = true ↔
      lastRotation 2 16 0 (initial 2 0) steadyTwelve <
        (run 2 16 (initial 2 0) steadyTwelve).1.totalTime / 6000) ∧
    (loop 2 16 (run 2 16 (initial 2 0) steadyTwelve).1 ⟨12750, 12750, 12750⟩).1.cpmIndex =
      (if lastRotation 2 16 0 (initial 2 0) steadyTwelve <
          (run 2 16 (initial 2 0) steadyTwelve).1.totalTime / 6000
        then nextIndex 2 (run 2 16 (initial 2 0) steadyTwelve).1.cpmIndex
        else (run 2 16 (initial 2 0) steadyTwelve).1.cpmIndex) :=
  rotation_on_boundary 2 16 30000 0 steadyTwelve ⟨12750, 12750, 12750⟩ (by decide) (by decide)
    (by decide) (by decide) (by decide) (by decide)

/-! ## Pre-emption of `loop()` -/

/-- Without a pulse during the call, `loopPreempted` is `loop`. -/
theorem loopPreempted_nil (H w : Nat) (s : Watch) (c : Clock) :
    loopPreempted H w s c [] = loop H w s c := by
  unfold loopPreempted loop
  simp only [handleAll, List.foldl_nil]
  split
  · split <;> rfl
  · rfl

/-- C17. One radiation pulse is pending and a call of `loop()` at 200 ms drains.  A
noise pulse that arrives before the call gates the cycle (`_cpm` stays 0).  The
same noise pulse arriving after the test of line 81 and before `noInterrupts()`
of line 93 is neither gated nor kept: the radiation count is accumulated
(`_cpm = 1`) and `noiseCount` is reset to 0, so no later cycle sees it. -/
theorem noise_pulse_lost_after_gate :
    drains 16 (_onRadiationHandler (initial 2 0)) ⟨200, 200, 200⟩ = true ∧
    (loop 2 16 (_onNoiseHandler (_onRadiationHandler (initial 2 0))) ⟨200, 200, 200⟩).1._cpm = 0 ∧
    (loopPreempted 2 16 (_onRadiationHandler (initial 2 0)) ⟨200, 200, 200⟩
      [Pulse.noise]).1._cpm = 1 ∧
    (loopPreempted 2 16 (_onRadiationHandler (initial 2 0)) ⟨200, 200, 200⟩
      [Pulse.noise]).1.totalTime = 200 ∧
    (loopPreempted 2 16 (_onRadiationHandler (initial 2 0)) ⟨200, 200, 200⟩
      [Pulse.noise]).1.noiseCount = 0 := by
  decide

end RadiationWatch
